import Mathlib

/-!
Verification of the pwdusage usage engine (calendar resolution, supply
allocation, schedule masks, configuration loading) against its source.

Conventions of the embedding:
* energy quantities are rationals (the source uses pandas floats; the claims
  are stated as arithmetic identities over the embedded numbers);
* timestamps and datetimes are integers (seconds); times of day are naturals
  (seconds since midnight);
* pandas frames are lists of (timestamp, row) pairs; python dicts are
  association lists with first-match lookup and insert-or-replace update;
* raised python exceptions are `Except`/`Option` error values.
-/

namespace Pwdusage

/-! ## Supply sources and flow rows (common.PDColName core columns) -/

/-- The three supply sources of `SUPPLY_TO_DEMAND` in engine.py. -/
inductive SupplySource
  | grid
  | pw
  | solar
deriving DecidableEq, Repr, BEq

open SupplySource

/-- Default supply priority set by `UsageEngine._init_settings`:
GRID_SUPPLY, PW_SUPPLY, SOLAR_SUPPLY. -/
def defaultPriority : List SupplySource := [grid, pw, solar]

/-- One row of the raw flow frame: the influx columns renamed by
`INFLUX_TO_PANDAS` (grid export is irrelevant to the allocation loop). -/
structure FlowRow where
  homeDemand : ℚ
  gridSupply : ℚ
  pwSupply : ℚ
  solarSupply : ℚ
deriving DecidableEq, Repr

/-- Column lookup for a supply source on a row. -/
def FlowRow.supply (r : FlowRow) : SupplySource → ℚ
  | grid => r.gridSupply
  | pw => r.pwSupply
  | solar => r.solarSupply

/-! ## The supply-allocation waterfall (`UsageEngine._core_usage`) -/

/-- One iteration of the priority loop in `_core_usage`:
`this_residual = (last_residual - supply).clip(lower=0.0)` and the
allocated amount `SUPPLY_TO_DEMAND[supply] = last_residual - this_residual`.
Returns (new residual, allocated amount). -/
def allocStep (lastRes supplyV : ℚ) : ℚ × ℚ :=
  (max (lastRes - supplyV) 0, lastRes - max (lastRes - supplyV) 0)

/-- The whole priority loop of `_core_usage`, with residual₀ = Home Demand.
Returns the trace [(source, residual before this source, amount allocated)]
together with the final residual (`RESIDUAL_DEMAND_FINAL`). -/
def waterfall (r : FlowRow) : ℚ → List SupplySource → List (SupplySource × ℚ × ℚ) × ℚ
  | res, [] => ([], res)
  | res, s :: rest =>
    let step := allocStep res (r.supply s)
    let tail := waterfall r step.1 rest
    ((s, res, step.2) :: tail.1, tail.2)

/-- Reads the `SUPPLY_TO_DEMAND[supply]` column written by the loop:
the amount allocated to the given source in the trace. -/
def allocOf : List (SupplySource × ℚ × ℚ) → SupplySource → ℚ
  | [], _ => 0
  | (s, _, a) :: rest, t => if s = t then a else allocOf rest t

/-- The columns added to every row by `UsageEngine._core_usage` after the
allocation loop (grid charging, the self-consumption groups, and the default
Tariff sentinel). -/
structure CoreCols where
  gridToHome : ℚ
  pwToHome : ℚ
  solarToHome : ℚ
  residualFinal : ℚ
  gridCharging : ℚ
  selfPwNetOfGrid : ℚ
  selfSolarPlusRes : ℚ
  selfTotal : ℚ
  tariff : String
deriving DecidableEq, Repr

/-- `UsageEngine._core_usage` on one row: run the waterfall over the priority
order, then compute the derived columns exactly as the source does. -/
def coreUsage (r : FlowRow) (prio : List SupplySource) : CoreCols :=
  let wf := waterfall r r.homeDemand prio
  let g := allocOf wf.1 grid
  let p := allocOf wf.1 pw
  let so := allocOf wf.1 solar
  { gridToHome := g
    pwToHome := p
    solarToHome := so
    residualFinal := wf.2
    gridCharging := r.gridSupply - g
    selfPwNetOfGrid := p - (r.gridSupply - g)
    selfSolarPlusRes := so + wf.2
    selfTotal := p + (so + wf.2)
    tariff := "None" }

/-! ### Waterfall lemmas -/

theorem waterfall_trace_fst (r : FlowRow) :
    ∀ (l : List SupplySource) (res : ℚ), ((waterfall r res l).1).map Prod.fst = l := by
  intro l
  induction l with
  | nil => intro res; rfl
  | cons s rest ih =>
    intro res
    simp [waterfall, ih]

theorem waterfall_sum (r : FlowRow) :
    ∀ (l : List SupplySource) (res : ℚ),
      ((waterfall r res l).1.map (fun x => x.2.2)).sum + (waterfall r res l).2 = res := by
  intro l
  induction l with
  | nil => intro res; simp [waterfall]
  | cons s rest ih =>
    intro res
    have h := ih (allocStep res (r.supply s)).1
    simp only [waterfall, List.map_cons, List.sum_cons]
    have : (allocStep res (r.supply s)).2 = res - (allocStep res (r.supply s)).1 := by
      simp [allocStep]
    rw [this]
    linarith [h]

theorem waterfall_alloc_le (r : FlowRow) :
    ∀ (l : List SupplySource) (res : ℚ),
      ∀ x ∈ (waterfall r res l).1, x.2.2 ≤ r.supply x.1 ∧ x.2.2 ≤ x.2.1 := by
  intro l
  induction l with
  | nil => intro res x hx; simp [waterfall] at hx
  | cons s rest ih =>
    intro res x hx
    simp only [waterfall, List.mem_cons] at hx
    rcases hx with h | h
    · subst h
      constructor
      · simp only [allocStep]
        have h1 : res - r.supply s ≤ max (res - r.supply s) 0 := le_max_left _ _
        linarith
      · simp only [allocStep]
        have h2 : (0 : ℚ) ≤ max (res - r.supply s) 0 := le_max_right _ _
        linarith
    · exact ih _ x h

theorem waterfall_alloc_nonneg (r : FlowRow) :
    ∀ (l : List SupplySource) (res : ℚ), 0 ≤ res → (∀ s ∈ l, 0 ≤ r.supply s) →
      ∀ x ∈ (waterfall r res l).1, 0 ≤ x.2.2 := by
  intro l
  induction l with
  | nil => intro res _ _ x hx; simp [waterfall] at hx
  | cons s rest ih =>
    intro res hres hsup x hx
    simp only [waterfall, List.mem_cons] at hx
    rcases hx with h | h
    · subst h
      simp only [allocStep]
      have hs : 0 ≤ r.supply s := hsup s (List.mem_cons_self s rest)
      rcases le_total (res - r.supply s) 0 with hc | hc
      · rw [max_eq_right hc]; linarith
      · rw [max_eq_left hc]; linarith
    · exact ih _ (le_max_right _ _) (fun t ht => hsup t (List.mem_cons_of_mem s ht)) x h

theorem waterfall_residual_nonneg (r : FlowRow) :
    ∀ (l : List SupplySource) (res : ℚ), 0 ≤ res → 0 ≤ (waterfall r res l).2 := by
  intro l
  induction l with
  | nil => intro res h; simpa [waterfall] using h
  | cons s rest ih =>
    intro res _
    exact ih _ (le_max_right _ _)

/-- The amount `allocOf` reads for a source in the priority list really was
allocated by some iteration (with some residual-before value). -/
theorem alloc_mem (r : FlowRow) :
    ∀ (l : List SupplySource) (res : ℚ) (s : SupplySource), s ∈ l →
      ∃ pre, (s, pre, allocOf (waterfall r res l).1 s) ∈ (waterfall r res l).1 := by
  intro l
  induction l with
  | nil => intro res s hs; simp at hs
  | cons t rest ih =>
    intro res s hs
    by_cases hts : t = s
    · subst hts
      refine ⟨res, ?_⟩
      simp [waterfall, allocOf]
    · rcases List.mem_cons.mp hs with h | h
      · exact absurd h.symm hts
      · obtain ⟨pre, hpre⟩ := ih (allocStep res (r.supply t)).1 s h
        refine ⟨pre, ?_⟩
        simp only [waterfall, allocOf, if_neg hts]
        exact List.mem_cons_of_mem _ hpre

/-- For a duplicate-free priority list, summing the per-source column values
recovers the sum of the allocation trace. -/
theorem map_allocOf_sum (r : FlowRow) :
    ∀ (l : List SupplySource) (res : ℚ), l.Nodup →
      (l.map (allocOf (waterfall r res l).1)).sum
        = ((waterfall r res l).1.map (fun x => x.2.2)).sum := by
  intro l
  induction l with
  | nil => intro res _; rfl
  | cons s rest ih =>
    intro res hnd
    have hs_not : s ∉ rest := (List.nodup_cons.mp hnd).1
    have hnd' : rest.Nodup := (List.nodup_cons.mp hnd).2
    simp only [waterfall, List.map_cons, List.sum_cons, allocOf, if_pos rfl]
    congr 1
    have hmap : rest.map (fun x => if s = x then (allocStep res (r.supply s)).2
          else allocOf (waterfall r (allocStep res (r.supply s)).1 rest).1 x)
        = rest.map (allocOf (waterfall r (allocStep res (r.supply s)).1 rest).1) := by
      apply List.map_congr_left
      intro t ht
      have hst : s ≠ t := fun he => hs_not (he ▸ ht)
      simp [if_neg hst]
    rw [hmap]
    exact ih _ hnd'

theorem coreUsage_gridToHome (r : FlowRow) (prio : List SupplySource) :
    (coreUsage r prio).gridToHome = allocOf (waterfall r r.homeDemand prio).1 grid := rfl

theorem coreUsage_pwToHome (r : FlowRow) (prio : List SupplySource) :
    (coreUsage r prio).pwToHome = allocOf (waterfall r r.homeDemand prio).1 pw := rfl

theorem coreUsage_solarToHome (r : FlowRow) (prio : List SupplySource) :
    (coreUsage r prio).solarToHome = allocOf (waterfall r r.homeDemand prio).1 solar := rfl

theorem coreUsage_residualFinal (r : FlowRow) (prio : List SupplySource) :
    (coreUsage r prio).residualFinal = (waterfall r r.homeDemand prio).2 := rfl

theorem coreUsage_gridCharging (r : FlowRow) (prio : List SupplySource) :
    (coreUsage r prio).gridCharging
      = r.gridSupply - allocOf (waterfall r r.homeDemand prio).1 grid := rfl

/-- Membership bound specialised to a named source column. -/
theorem allocOf_le_supply (r : FlowRow) (prio : List SupplySource) (s : SupplySource)
    (hmem : s ∈ prio) :
    allocOf (waterfall r r.homeDemand prio).1 s ≤ r.supply s := by
  obtain ⟨pre, hpre⟩ := alloc_mem r prio r.homeDemand s hmem
  exact (waterfall_alloc_le r prio r.homeDemand _ hpre).1

theorem allocOf_nonneg (r : FlowRow) (prio : List SupplySource) (s : SupplySource)
    (hmem : s ∈ prio) (hd : 0 ≤ r.homeDemand) (hsup : ∀ t ∈ prio, 0 ≤ r.supply t) :
    0 ≤ allocOf (waterfall r r.homeDemand prio).1 s := by
  obtain ⟨pre, hpre⟩ := alloc_mem r prio r.homeDemand s hmem
  exact waterfall_alloc_nonneg r prio r.homeDemand hd hsup _ hpre

/-- Claim C2 (amended with non-negativity hypotheses): for a row whose home
demand and supply values are non-negative and any priority order that is a
permutation of the three supply sources, every allocation of the waterfall in
`_core_usage` is non-negative, at most the corresponding supply, and at most
the residual demand remaining before that source was allocated; and the three
allocated source-to-home columns plus the final residual sum exactly to the
row's original home demand (the sum identity holding by telescoping). -/
theorem core_usage_allocation_bounds (r : FlowRow) (prio : List SupplySource)
    (hp : prio.Perm defaultPriority)
    (hd : 0 ≤ r.homeDemand) (hg : 0 ≤ r.gridSupply)
    (hw : 0 ≤ r.pwSupply) (hs : 0 ≤ r.solarSupply) :
    (∀ x ∈ (waterfall r r.homeDemand prio).1,
        0 ≤ x.2.2 ∧ x.2.2 ≤ r.supply x.1 ∧ x.2.2 ≤ x.2.1) ∧
    (0 ≤ (coreUsage r prio).gridToHome ∧ (coreUsage r prio).gridToHome ≤ r.gridSupply) ∧
    (0 ≤ (coreUsage r prio).pwToHome ∧ (coreUsage r prio).pwToHome ≤ r.pwSupply) ∧
    (0 ≤ (coreUsage r prio).solarToHome ∧ (coreUsage r prio).solarToHome ≤ r.solarSupply) ∧
    (coreUsage r prio).gridToHome + (coreUsage r prio).pwToHome
      + (coreUsage r prio).solarToHome + (coreUsage r prio).residualFinal
      = r.homeDemand := by
  have hsup : ∀ t ∈ prio, 0 ≤ r.supply t := by
    intro t _
    cases t
    · exact hg
    · exact hw
    · exact hs
  have hgm : grid ∈ prio := hp.mem_iff.mpr (by simp [defaultPriority])
  have hwm : pw ∈ prio := hp.mem_iff.mpr (by simp [defaultPriority])
  have hsm : solar ∈ prio := hp.mem_iff.mpr (by simp [defaultPriority])
  refine ⟨?_, ?_, ?_, ?_, ?_⟩
  · intro x hx
    exact ⟨waterfall_alloc_nonneg r prio r.homeDemand hd hsup x hx,
      (waterfall_alloc_le r prio r.homeDemand x hx).1,
      (waterfall_alloc_le r prio r.homeDemand x hx).2⟩
  · exact ⟨by rw [coreUsage_gridToHome]; exact allocOf_nonneg r prio grid hgm hd hsup,
      by rw [coreUsage_gridToHome]; exact allocOf_le_supply r prio grid hgm⟩
  · exact ⟨by rw [coreUsage_pwToHome]; exact allocOf_nonneg r prio pw hwm hd hsup,
      by rw [coreUsage_pwToHome]; exact allocOf_le_supply r prio pw hwm⟩
  · exact ⟨by rw [coreUsage_solarToHome]; exact allocOf_nonneg r prio solar hsm hd hsup,
      by rw [coreUsage_solarToHome]; exact allocOf_le_supply r prio solar hsm⟩
  · have hnd : prio.Nodup := (List.Perm.nodup_iff hp).mpr (by simp [defaultPriority])
    have hperm : (defaultPriority.map (allocOf (waterfall r r.homeDemand prio).1)).sum
        = (prio.map (allocOf (waterfall r r.homeDemand prio).1)).sum :=
      (List.Perm.map _ hp.symm).sum_eq
    have hms := map_allocOf_sum r prio r.homeDemand hnd
    have hws := waterfall_sum r prio r.homeDemand
    rw [coreUsage_gridToHome, coreUsage_pwToHome, coreUsage_solarToHome,
      coreUsage_residualFinal]
    have hdef : (defaultPriority.map (allocOf (waterfall r r.homeDemand prio).1)).sum
        = allocOf (waterfall r r.homeDemand prio).1 grid
          + allocOf (waterfall r r.homeDemand prio).1 pw
          + allocOf (waterfall r r.homeDemand prio).1 solar := by
      simp [defaultPriority]
      ring
    linarith [hperm, hms, hws, hdef]

/-- Claim C2, counterexample to the unconditional statement: on a row with
negative home demand (which nothing in `_core_usage` rules out) the first
allocation is negative. -/
theorem core_usage_allocation_cex :
    ¬ (0 ≤ (coreUsage ⟨-1, 4, 3, 2⟩ defaultPriority).gridToHome) := by
  norm_num [coreUsage, waterfall, allocStep, allocOf, FlowRow.supply, defaultPriority]

/-- Witness for C2: the bounds and the sum identity evaluated on the worked
scenario of the spec (demand 10, grid 4, battery 3, solar 2). -/
theorem core_usage_allocation_bounds_witness :
    (0 : ℚ) ≤ 10 ∧
      (coreUsage ⟨10, 4, 3, 2⟩ defaultPriority).gridToHome
        + (coreUsage ⟨10, 4, 3, 2⟩ defaultPriority).pwToHome
        + (coreUsage ⟨10, 4, 3, 2⟩ defaultPriority).solarToHome
        + (coreUsage ⟨10, 4, 3, 2⟩ defaultPriority).residualFinal
        = (⟨10, 4, 3, 2⟩ : FlowRow).homeDemand :=
  ⟨by norm_num,
    (core_usage_allocation_bounds ⟨10, 4, 3, 2⟩ defaultPriority (List.Perm.refl _)
      (by norm_num) (by norm_num) (by norm_num) (by norm_num)).2.2.2.2⟩

/-- Claim C9: with non-negative home demand and supplies, the Grid charging
column (grid supply minus grid-to-home) computed by `_core_usage` is
non-negative for every permutation of the priority order, because the
waterfall never allocates more than the source's supply. -/
theorem grid_charging_nonneg (r : FlowRow) (prio : List SupplySource)
    (hp : prio.Perm defaultPriority)
    (hd : 0 ≤ r.homeDemand) (hg : 0 ≤ r.gridSupply)
    (hw : 0 ≤ r.pwSupply) (hs : 0 ≤ r.solarSupply) :
    0 ≤ (coreUsage r prio).gridCharging := by
  have hgm : grid ∈ prio := hp.mem_iff.mpr (by simp [defaultPriority])
  have hb := allocOf_le_supply r prio grid hgm
  rw [coreUsage_gridCharging]
  simp only [FlowRow.supply] at hb
  linarith

/-- Witness for C9 at a concrete row where grid supply exceeds demand. -/
theorem grid_charging_nonneg_witness :
    (0 : ℚ) ≤ 2 ∧ 0 ≤ (coreUsage ⟨2, 5, 1, 1⟩ [pw, solar, grid]).gridCharging :=
  ⟨by norm_num,
    grid_charging_nonneg ⟨2, 5, 1, 1⟩ [pw, solar, grid]
      (by decide) (by norm_num) (by norm_num) (by norm_num) (by norm_num)⟩

/-! ## Tariff periods and schedules (`TariffPeriod`, `TariffSchedule`,
`UsagePlan._init_seasons` period construction, `UsageEngine._apply_calendar`) -/

/-- `TariffPeriod` dataclass: an intraday interval for one tariff name.
Times of day are seconds since midnight; the python `end` field is `endT`
here because `end` is reserved in Lean. -/
structure TariffPeriod where
  tariff : String
  start : Nat
  endT : Nat
deriving DecidableEq, Repr

/-- `TariffSchedule` dataclass: weekday set plus period table. The python
`days` set is an integer list with membership semantics. -/
structure TariffSchedule where
  name : String
  days : List Nat
  periods : List TariffPeriod
deriving DecidableEq, Repr

/-- Last element of a non-empty list, mirroring python `list(...)[-1]`. -/
def lastB : (Nat × String) → List (Nat × String) → (Nat × String)
  | a, [] => a
  | _, b :: bs => lastB b bs

/-- Period construction of `UsagePlan._init_seasons`: the ordered mapping
time-of-day → tariff becomes successive half-interval boundaries via
`pairwise`, and one extra period wraps the last boundary back to the first
(to the boundary itself when there is a single entry).  An empty mapping
makes python raise on `list(...)[-1]`, hence `none`. -/
def mkPeriods : List (Nat × String) → Option (List TariffPeriod)
  | [] => none
  | a :: as =>
    let lastE := lastB a as
    let wrapEnd := if as.isEmpty then lastE.1 else a.1
    some (((a :: as).zip as).map (fun p => TariffPeriod.mk p.1.2 p.1.1 p.2.1)
      ++ [TariffPeriod.mk lastE.2 lastE.1 wrapEnd])

/-- The pandas `between_time(start, end, inclusive="left")` row test used by
`_apply_calendar`: when start ≤ end the test is `start ≤ t < end`, and when
start > end the interval wraps midnight and the test is `t ≥ start or
t < end`. -/
def betweenTimeLeft (s e t : Nat) : Bool :=
  if s ≤ e then decide (s ≤ t) && decide (t < e)
  else decide (s ≤ t) || decide (t < e)

/-- Time of day (seconds since local midnight) of an epoch-style local
timestamp. -/
def todOf (t : Int) : Nat := (Int.emod t 86400).toNat

/-- pandas `dayofweek` (Monday = 0) of a local timestamp; day 0 of the epoch
was a Thursday. -/
def dayOfWeek (t : Int) : Nat := (Int.emod (Int.ediv t 86400 + 3) 7).toNat

/-- The per-schedule body of `UsageEngine._apply_calendar`: filter the season
rows by the schedule's weekday set, then produce one (tariff, row mask) per
period — the whole day-filtered mask when the schedule has exactly one
period, otherwise the half-open `between_time` filter. -/
def applyCalendarSchedule (sched : TariffSchedule) (seasonRows : List Int) :
    List (String × List Int) :=
  let dayIdx := seasonRows.filter (fun t => sched.days.contains (dayOfWeek t))
  sched.periods.map (fun p =>
    (p.tariff,
      if sched.periods.length = 1 then dayIdx
      else dayIdx.filter (fun t => betweenTimeLeft p.start p.endT (todOf t))))

/-! ### Tiling lemmas for the period masks -/

theorem lastB_fst_ge :
    ∀ (as : List (Nat × String)) (a : Nat × String),
      List.Chain' (fun x y => x.1 < y.1) (a :: as) → a.1 ≤ (lastB a as).1 := by
  intro as
  induction as with
  | nil => intro a _; exact le_refl _
  | cons b bs ih =>
    intro a h
    rcases List.chain'_cons.mp h with ⟨hab, hrest⟩
    exact le_of_lt (lt_of_lt_of_le hab (ih b hrest))

theorem zip_pairs_lt :
    ∀ (as : List (Nat × String)) (a : Nat × String),
      List.Chain' (fun x y => x.1 < y.1) (a :: as) →
      ∀ q ∈ (a :: as).zip as, q.1.1 < q.2.1 := by
  intro as
  induction as with
  | nil => intro a _ q hq; simp at hq
  | cons b bs ih =>
    intro a h q hq
    rcases List.chain'_cons.mp h with ⟨hab, hrest⟩
    rcases List.mem_cons.mp hq with he | he
    · subst he; exact hab
    · exact ih b hrest q he

/-- Count of the consecutive (non-wrapping) period masks that contain a given
time of day: exactly one when the time lies in `[first boundary, last
boundary)`, none otherwise. -/
theorem main_periods_count :
    ∀ (as : List (Nat × String)) (a : Nat × String),
      List.Chain' (fun x y => x.1 < y.1) (a :: as) →
      ∀ t : Nat,
        (((a :: as).zip as).map (fun p => TariffPeriod.mk p.1.2 p.1.1 p.2.1)).countP
          (fun p => betweenTimeLeft p.start p.endT t)
        = if a.1 ≤ t ∧ t < (lastB a as).1 then 1 else 0 := by
  intro as
  induction as with
  | nil =>
    intro a _ t
    have hfalse : ¬(a.1 ≤ t ∧ t < (lastB a []).1) := by
      simp only [lastB]
      omega
    simp [hfalse]
  | cons b bs ih =>
    intro a h t
    rcases List.chain'_cons.mp h with ⟨hab, hrest⟩
    have hblast : b.1 ≤ (lastB b bs).1 := lastB_fst_ge bs b hrest
    have hcount := ih b hrest t
    simp only [List.zip_cons_cons, List.map_cons, List.countP_cons, lastB]
    rw [hcount]
    have hmask : (betweenTimeLeft a.1 b.1 t)
        = (decide (a.1 ≤ t) && decide (t < b.1)) := by
      simp [betweenTimeLeft, le_of_lt hab]
    rw [hmask]
    by_cases h1 : a.1 ≤ t <;> by_cases h2 : t < b.1 <;>
      by_cases hb : b.1 ≤ t <;> by_cases h3 : t < (lastB b bs).1 <;>
      simp [h1, h2, hb, h3] <;> omega

/-- Pairwise disjointness of the per-period row masks follows from the
at-most-one count bound on the time-of-day masks. -/
theorem masks_pairwise_disjoint (dayIdx : List Int) :
    ∀ ps : List TariffPeriod,
      (∀ x : Int, ps.countP (fun p => betweenTimeLeft p.start p.endT (todOf x)) ≤ 1) →
      (ps.map (fun p =>
        (p.tariff, dayIdx.filter (fun t => betweenTimeLeft p.start p.endT (todOf t))))).Pairwise
        (fun m1 m2 => ∀ x, x ∈ m1.2 → x ∉ m2.2) := by
  intro ps
  induction ps with
  | nil => intro _; exact List.Pairwise.nil
  | cons p ps' ihp =>
    intro hle
    simp only [List.map_cons]
    refine List.Pairwise.cons ?_ (ihp ?_)
    · intro m hm x hxp hxq
      obtain ⟨q, hq, he⟩ := List.mem_map.mp hm
      subst he
      rcases List.mem_filter.mp hxp with ⟨_, hxm⟩
      rcases List.mem_filter.mp hxq with ⟨_, hxm'⟩
      have h1 := hle x
      rw [List.countP_cons] at h1
      simp only [hxm, if_pos] at h1
      have hzero : ps'.countP (fun p => betweenTimeLeft p.start p.endT (todOf x)) = 0 := by
        omega
      have := List.countP_eq_zero.mp hzero q hq
      simp [hxm'] at this
    · intro x
      have h1 := hle x
      rw [List.countP_cons] at h1
      omega

/-- Claim C5 (amended to strictly increasing boundary times): for a schedule
built by `_init_seasons` from two or more strictly ascending boundaries, the
half-open `between_time` masks of `_apply_calendar` cover every time of day
exactly once; a boundary time belongs to the period that starts there; and at
row level the per-period masks are pairwise disjoint, cover the whole
day-filtered mask, and contain only day-filtered rows. -/
theorem schedule_tiling (bs : List (Nat × String)) (ps : List TariffPeriod)
    (hlen : 2 ≤ bs.length)
    (hchain : List.Chain' (fun x y => x.1 < y.1) bs)
    (hps : mkPeriods bs = some ps)
    (nm : String) (days : List Nat) (rows : List Int) :
    (∀ t : Nat, ps.countP (fun p => betweenTimeLeft p.start p.endT t) = 1) ∧
    (∀ p ∈ ps, betweenTimeLeft p.start p.endT p.start = true) ∧
    (applyCalendarSchedule ⟨nm, days, ps⟩ rows).Pairwise
      (fun m1 m2 => ∀ x, x ∈ m1.2 → x ∉ m2.2) ∧
    (∀ x ∈ rows, days.contains (dayOfWeek x) = true →
      ∃ m ∈ applyCalendarSchedule ⟨nm, days, ps⟩ rows, x ∈ m.2) ∧
    (∀ m ∈ applyCalendarSchedule ⟨nm, days, ps⟩ rows, ∀ x ∈ m.2,
      x ∈ rows ∧ days.contains (dayOfWeek x) = true) := by
  match bs, hlen, hchain, hps with
  | a :: b :: as', hlen, hchain, hps =>
  have hps' : ps = ((a :: b :: as').zip (b :: as')).map
        (fun p => TariffPeriod.mk p.1.2 p.1.1 p.2.1)
      ++ [TariffPeriod.mk (lastB b as').2 (lastB b as').1 a.1] := by
    have h := hps
    simp only [mkPeriods, lastB, List.isEmpty_cons, Bool.false_eq_true, if_false,
      Option.some.injEq] at h
    exact h.symm
  have hab : a.1 < b.1 := (List.chain'_cons.mp hchain).1
  have hrest : List.Chain' (fun x y => x.1 < y.1) (b :: as') :=
    (List.chain'_cons.mp hchain).2
  have halast : a.1 < (lastB b as').1 :=
    lt_of_lt_of_le hab (lastB_fst_ge as' b hrest)
  have hlastlast : lastB a (b :: as') = lastB b as' := rfl
  have hcount : ∀ t : Nat, ps.countP (fun p => betweenTimeLeft p.start p.endT t) = 1 := by
    intro t
    rw [hps', List.countP_append]
    have hmain := main_periods_count (b :: as') a hchain t
    rw [hlastlast] at hmain
    rw [hmain]
    have hwmask : betweenTimeLeft (lastB b as').1 a.1 t
        = (decide ((lastB b as').1 ≤ t) || decide (t < a.1)) := by
      simp only [betweenTimeLeft, if_neg (not_le.mpr halast)]
    simp only [List.countP_cons, List.countP_nil, hwmask]
    by_cases h1 : a.1 ≤ t <;> by_cases h2 : t < (lastB b as').1 <;>
      by_cases hl : (lastB b as').1 ≤ t <;> by_cases h4 : t < a.1 <;>
      simp [h1, h2, hl, h4] <;> omega
  have hlen1 : ps.length ≠ 1 := by
    rw [hps']
    simp [List.length_zip]
  have hbound : ∀ p ∈ ps, betweenTimeLeft p.start p.endT p.start = true := by
    intro p hp
    rw [hps'] at hp
    rcases List.mem_append.mp hp with hm | hm
    · obtain ⟨q, hq, he⟩ := List.mem_map.mp hm
      have hlt := zip_pairs_lt (b :: as') a hchain q hq
      subst he
      simp only [betweenTimeLeft, if_pos (le_of_lt hlt)]
      simp [hlt]
    · simp only [List.mem_singleton] at hm
      subst hm
      simp only [betweenTimeLeft, if_neg (not_le.mpr halast)]
      simp
  have hle : ∀ x : Int, ps.countP (fun p => betweenTimeLeft p.start p.endT (todOf x)) ≤ 1 :=
    fun x => le_of_eq (hcount (todOf x))
  have hmasks : applyCalendarSchedule ⟨nm, days, ps⟩ rows
      = ps.map (fun p =>
          (p.tariff,
            (rows.filter (fun t => days.contains (dayOfWeek t))).filter
              (fun t => betweenTimeLeft p.start p.endT (todOf t)))) := by
    simp only [applyCalendarSchedule, if_neg hlen1]
  refine ⟨hcount, hbound, ?_, ?_, ?_⟩
  · rw [hmasks]
    exact masks_pairwise_disjoint _ ps hle
  · intro x hx hdx
    have h1 := hcount (todOf x)
    have hpos : 0 < ps.countP (fun p => betweenTimeLeft p.start p.endT (todOf x)) := by
      omega
    obtain ⟨p, hp, hm⟩ := List.countP_pos_iff.mp hpos
    refine ⟨(p.tariff,
      (rows.filter (fun t => days.contains (dayOfWeek t))).filter
        (fun t => betweenTimeLeft p.start p.endT (todOf t))), ?_, ?_⟩
    · rw [hmasks]
      exact List.mem_map.mpr ⟨p, hp, rfl⟩
    · exact List.mem_filter.mpr ⟨List.mem_filter.mpr ⟨hx, hdx⟩, hm⟩
  · intro m hm x hx
    rw [hmasks] at hm
    obtain ⟨p, _, he⟩ := List.mem_map.mp hm
    subst he
    rcases List.mem_filter.mp hx with ⟨hxd, _⟩
    exact ⟨(List.mem_filter.mp hxd).1, (List.mem_filter.mp hxd).2⟩

/-- Claim C5, counterexample to the unconditional statement: boundaries given
in non-ascending order (nothing in `_init_seasons` sorts or validates them)
produce overlapping masks — time of day 20000 lies in two of the three
periods built from boundaries 0, 36000, 18000. -/
theorem schedule_tiling_cex :
    (mkPeriods [(0, "a"), (36000, "b"), (18000, "c")]).map
        (fun ps => ps.countP (fun p => betweenTimeLeft p.start p.endT 20000))
      = some 2 ∧ (2 : Nat) ≠ 1 := by
  constructor
  · decide
  · decide

/-- Witness for C5 at the spec's peak/off-peak example: boundaries 14:00 and
20:00 (50400 s and 72000 s). -/
theorem schedule_tiling_witness :
    (2 ≤ ([(50400, "peak"), (72000, "off-peak")] : List (Nat × String)).length) ∧
    (∀ t : Nat,
      ([TariffPeriod.mk "peak" 50400 72000,
        TariffPeriod.mk "off-peak" 72000 50400].countP
        (fun p => betweenTimeLeft p.start p.endT t)) = 1) :=
  ⟨by decide,
    (schedule_tiling [(50400, "peak"), (72000, "off-peak")]
      [TariffPeriod.mk "peak" 50400 72000, TariffPeriod.mk "off-peak" 72000 50400]
      (by decide) (by simp [List.chain'_cons]) (by decide)
      "wk" [0, 1, 2, 3, 4] []).1⟩

/-- Claim C6: a schedule whose periods list has exactly one element yields the
entire day-of-week-filtered mask, regardless of the stored start/end times of
that period (no `between_time` filtering is applied). -/
theorem single_period_whole_day (sched : TariffSchedule) (p : TariffPeriod)
    (hp : sched.periods = [p]) (rows : List Int) :
    applyCalendarSchedule sched rows
      = [(p.tariff, rows.filter (fun t => sched.days.contains (dayOfWeek t)))] := by
  simp [applyCalendarSchedule, hp]

/-- Witness for C6: a single all-named period with arbitrary stored times
(9:00–17:00) still selects every day-filtered row, including one at 20:00. -/
theorem single_period_whole_day_witness :
    applyCalendarSchedule ⟨"all", [3], [TariffPeriod.mk "flat" 32400 61200]⟩ [72000]
      = [("flat", [72000])] := by
  have h := single_period_whole_day ⟨"all", [3], [TariffPeriod.mk "flat" 32400 61200]⟩
    (TariffPeriod.mk "flat" 32400 61200) rfl [72000]
  rw [h]
  decide

/-! ## The Tariff column frame effect (C10):
`_core_usage` line `df[PDColName.TARIFF.value] = "None"` and
`_add_energy_reports` line
`self._frame.loc[tariff_idx, PDColName.TARIFF.value] = tariff`. -/

/-- `self._frame.loc[tariff_idx, TARIFF] = tariff`: overwrite the Tariff
column for exactly the rows selected by the mask. -/
def applyTariffUpdate (frame : List (Int × CoreCols)) (tariffName : String)
    (idx : List Int) : List (Int × CoreCols) :=
  frame.map (fun r => if idx.contains r.1 then (r.1, { r.2 with tariff := tariffName }) else r)

/-- The sequence of Tariff-column writes performed over a request: one
`_add_energy_reports` call per resolved (tariff, row mask) pair emitted by
`_process_periodic_data` / `_apply_calendar`. -/
def applyAllTariffs (frame : List (Int × CoreCols)) (masks : List (String × List Int)) :
    List (Int × CoreCols) :=
  masks.foldl (fun fr m => applyTariffUpdate fr m.1 m.2) frame

/-- The Tariff column starts as the sentinel "None" on every row. -/
theorem coreUsage_tariff (r : FlowRow) (prio : List SupplySource) :
    (coreUsage r prio).tariff = "None" := rfl

/-- A row whose timestamp is in none of the masks survives all tariff writes
unchanged. -/
theorem applyAllTariffs_not_masked :
    ∀ (masks : List (String × List Int)) (frame : List (Int × CoreCols)) (t : Int)
      (c : CoreCols), (∀ m ∈ masks, ¬ m.2.contains t) →
      (t, c) ∈ applyAllTariffs frame masks → (t, c) ∈ frame := by
  intro masks
  induction masks with
  | nil => intro frame t c _ h; exact h
  | cons m rest ih =>
    intro frame t c hnot h
    have hstep := ih (applyTariffUpdate frame m.1 m.2) t c
      (fun m' hm' => hnot m' (List.mem_cons_of_mem m hm')) h
    obtain ⟨r, hr, he⟩ := List.mem_map.mp hstep
    by_cases hc : m.2.contains r.1
    · rw [if_pos hc] at he
      have ht : r.1 = t := congrArg Prod.fst he
      exact absurd (ht ▸ hc) (hnot m (List.mem_cons_self m rest))
    · rw [if_neg hc] at he
      exact he ▸ hr

/-- Claim C10: every row of the requested window that lies in none of the
emitted tariff-period masks (outside calendar coverage, outside every
schedule's weekday set, or in an empty period mask) ends the request with its
Tariff column still equal to the "None" sentinel written by `_core_usage` —
silently, with no error raised. -/
theorem tariff_none_outside_masks (rows : List (Int × FlowRow))
    (prio : List SupplySource) (masks : List (String × List Int)) (t : Int)
    (c : CoreCols) (hout : ∀ m ∈ masks, ¬ m.2.contains t)
    (hmem : (t, c) ∈ applyAllTariffs
      (rows.map (fun r => (r.1, coreUsage r.2 prio))) masks) :
    c.tariff = "None" := by
  have hbase := applyAllTariffs_not_masked masks
    (rows.map (fun r => (r.1, coreUsage r.2 prio))) t c hout hmem
  obtain ⟨r, _, he⟩ := List.mem_map.mp hbase
  have hc : c = coreUsage r.2 prio := (congrArg Prod.snd he).symm
  rw [hc]
  exact coreUsage_tariff r.2 prio

/-- Witness for C10: a single row at timestamp 0, outside the only emitted
mask, keeps Tariff = "None". -/
theorem tariff_none_outside_masks_witness :
    ((coreUsage ⟨1, 1, 0, 0⟩ defaultPriority).tariff = "None") :=
  tariff_none_outside_masks [(0, ⟨1, 1, 0, 0⟩)] defaultPriority
    [("peak", [86400])] 0 (coreUsage ⟨1, 1, 0, 0⟩ defaultPriority)
    (by decide)
    (by simp [applyAllTariffs, applyTariffUpdate])

/-! ## Calendar entries and the calendar resolution loop
(`CalendarEntry`, `UsageEngine._process_periodic_data`) -/

/-- `PDColName` enum of common.py (the names, used as rate-table labels and
report-column names; the string values appear only in display output). -/
inductive PDColName
  | GRID_SUPPLY
  | GRID_EXPORT
  | PW_SUPPLY
  | HOME_DEMAND
  | SOLAR_SUPPLY
  | GRID_TO_HOME
  | PW_TO_HOME
  | SOLAR_TO_HOME
  | GRID_CHARGING
  | RESIDUAL_DEMAND_1
  | RESIDUAL_DEMAND_2
  | RESIDUAL_DEMAND_FINAL
  | SELF_PW_NET_OF_GRID
  | SELF_SOLAR_PLUS_RES
  | SELF_TOTAL
  | SUPPLY_CHARGE
  | TARIFF
  | TIME
deriving DecidableEq, Repr

/-- `PDColName.from_str`: the string must be the enum NAME (python
`cls[str_v]`); unknown names give `none`. -/
def PDColName.fromStr : String → Option PDColName
  | "GRID_SUPPLY" => some .GRID_SUPPLY
  | "GRID_EXPORT" => some .GRID_EXPORT
  | "PW_SUPPLY" => some .PW_SUPPLY
  | "HOME_DEMAND" => some .HOME_DEMAND
  | "SOLAR_SUPPLY" => some .SOLAR_SUPPLY
  | "GRID_TO_HOME" => some .GRID_TO_HOME
  | "PW_TO_HOME" => some .PW_TO_HOME
  | "SOLAR_TO_HOME" => some .SOLAR_TO_HOME
  | "GRID_CHARGING" => some .GRID_CHARGING
  | "RESIDUAL_DEMAND_1" => some .RESIDUAL_DEMAND_1
  | "RESIDUAL_DEMAND_2" => some .RESIDUAL_DEMAND_2
  | "RESIDUAL_DEMAND_FINAL" => some .RESIDUAL_DEMAND_FINAL
  | "SELF_PW_NET_OF_GRID" => some .SELF_PW_NET_OF_GRID
  | "SELF_SOLAR_PLUS_RES" => some .SELF_SOLAR_PLUS_RES
  | "SELF_TOTAL" => some .SELF_TOTAL
  | "SUPPLY_CHARGE" => some .SUPPLY_CHARGE
  | "TARIFF" => some .TARIFF
  | "TIME" => some .TIME
  | _ => none

/-- `CalendarEntry` dataclass: start date, plan name, season name, sanitized
tariff rate tables, and the end date filled in by `_load_calendar` (the final
entry keeps `none`). -/
structure CalendarEntry where
  startDate : Int
  plan : String
  season : String
  tariffs : List (String × List (PDColName × ℚ))
  endDate : Option Int := none
deriving DecidableEq, Repr

/-- The calendar resolution loop of `UsageEngine._process_periodic_data`,
entry by entry with the running `season_start` cursor. Emits the
(entry, season_start, season_end) triples passed to `_apply_calendar`. -/
def resolveLoop : List CalendarEntry → Int → Int → List (CalendarEntry × Int × Int)
  | [], _, _ => []
  | e :: rest, cursor, stop =>
    if stop ≤ e.startDate then
      -- entry.start_date >= self._range_stop: break
      []
    else
      -- if season_start <= entry.start_date: season_start = entry.start_date
      let s := if cursor ≤ e.startDate then e.startDate else cursor
      if stop ≤ s then
        -- season_start >= self._range_stop: break
        []
      else
        match e.endDate with
        | some ed =>
          if ed ≤ s then
            -- season_start >= entry.end_date: continue
            resolveLoop rest s stop
          else
            -- season_end = min(entry.end_date, self._range_stop)
            let se := if ed < stop then ed else stop
            (e, s, se) :: resolveLoop rest se stop
        | none =>
          -- final entry: season_end = self._range_stop
          (e, s, stop) :: resolveLoop rest stop stop

/-- A valid calendar as produced by `_load_calendar`: strictly ascending
start dates, each entry's end date equal to the next entry's start date, and
the final end date `none`. -/
def ValidChain : List CalendarEntry → Prop
  | [] => True
  | [e] => e.endDate = none
  | a :: b :: rest =>
    a.endDate = some b.startDate ∧ a.startDate < b.startDate ∧ ValidChain (b :: rest)

/-- The half-open range of instants an entry covers. -/
def entryCovers (en : CalendarEntry) (t : Int) : Prop :=
  en.startDate ≤ t ∧ match en.endDate with
    | some ed => t < ed
    | none => True

/-- A list of half-open ranges tiles the interval [lo, hi): the ranges are
consecutive, non-empty, and exactly exhaust the interval. -/
def TilesInterval : List (Int × Int) → Int → Int → Prop
  | [], lo, hi => hi ≤ lo
  | (s, e) :: rest, lo, hi => s = lo ∧ lo < e ∧ e ≤ hi ∧ TilesInterval rest e hi

theorem tiles_nil_of_le :
    ∀ (l : List (Int × Int)) (lo hi : Int), TilesInterval l lo hi → hi ≤ lo → l = [] := by
  intro l lo hi ht hle
  match l, ht with
  | [], _ => rfl
  | (s, e) :: rest, ht =>
    obtain ⟨hs, hlt, hhi, _⟩ := ht
    omega

theorem tiles_bounds :
    ∀ (l : List (Int × Int)) (lo hi : Int), TilesInterval l lo hi →
      ∀ p ∈ l, lo ≤ p.1 ∧ p.1 < p.2 ∧ p.2 ≤ hi := by
  intro l
  induction l with
  | nil => intro lo hi _ p hp; simp at hp
  | cons q rest ih =>
    intro lo hi ht p hp
    match q, ht with
    | (s, e), ht =>
      obtain ⟨hs, hlt, hhi, htail⟩ := ht
      rcases List.mem_cons.mp hp with he | he
      · subst he
        exact ⟨le_of_eq hs.symm, by omega, hhi⟩
      · have := ih e hi htail p he
        exact ⟨by omega, this.2.1, this.2.2⟩

theorem tiles_mem_iff :
    ∀ (l : List (Int × Int)) (lo hi : Int), TilesInterval l lo hi →
      ∀ t : Int, (∃ p ∈ l, p.1 ≤ t ∧ t < p.2) ↔ (lo ≤ t ∧ t < hi) := by
  intro l
  induction l with
  | nil =>
    intro lo hi ht t
    simp only [TilesInterval] at ht
    constructor
    · intro h; simp at h
    · intro h; omega
  | cons q rest ih =>
    intro lo hi ht t
    match q, ht with
    | (s, e), ht =>
      obtain ⟨hs, hlt, hhi, htail⟩ := ht
      subst hs
      have hiff := ih e hi htail t
      constructor
      · intro h
        obtain ⟨p, hp, hin⟩ := h
        rcases List.mem_cons.mp hp with he | he
        · subst he
          simp only at hin
          omega
        · have := hiff.mp ⟨p, he, hin⟩
          omega
      · intro h
        by_cases hc : t < e
        · exact ⟨(s, e), List.mem_cons_self _ _, by omega⟩
        · obtain ⟨p, hp, hin⟩ := hiff.mpr (by omega)
          exact ⟨p, List.mem_cons_of_mem _ hp, hin⟩

theorem tiles_pairwise :
    ∀ (l : List (Int × Int)) (lo hi : Int), TilesInterval l lo hi →
      l.Pairwise (fun p q => p.2 ≤ q.1) := by
  intro l
  induction l with
  | nil => intro lo hi _; exact List.Pairwise.nil
  | cons q rest ih =>
    intro lo hi ht
    match q, ht with
    | (s, e), ht =>
      obtain ⟨hs, hlt, hhi, htail⟩ := ht
      refine List.Pairwise.cons ?_ (ih e hi htail)
      intro p hp
      exact (tiles_bounds rest e hi htail p hp).1

theorem resolveLoop_nil (c stop : Int) : resolveLoop [] c stop = [] := rfl

/-- Unfolding of one loop iteration for an entry with a known end date. -/
theorem resolveLoop_cons_some (st : Int) (pl sn : String)
    (tf : List (String × List (PDColName × ℚ))) (ed : Int)
    (rest : List CalendarEntry) (c stop : Int) :
    resolveLoop (⟨st, pl, sn, tf, some ed⟩ :: rest) c stop =
      if stop ≤ st then []
      else if stop ≤ (if c ≤ st then st else c) then []
      else if ed ≤ (if c ≤ st then st else c) then
        resolveLoop rest (if c ≤ st then st else c) stop
      else (⟨st, pl, sn, tf, some ed⟩, (if c ≤ st then st else c),
          (if ed < stop then ed else stop))
        :: resolveLoop rest (if ed < stop then ed else stop) stop := rfl

/-- Unfolding of one loop iteration for the final (open-ended) entry. -/
theorem resolveLoop_cons_none (st : Int) (pl sn : String)
    (tf : List (String × List (PDColName × ℚ)))
    (rest : List CalendarEntry) (c stop : Int) :
    resolveLoop (⟨st, pl, sn, tf, none⟩ :: rest) c stop =
      if stop ≤ st then []
      else if stop ≤ (if c ≤ st then st else c) then []
      else (⟨st, pl, sn, tf, none⟩, (if c ≤ st then st else c), stop)
        :: resolveLoop rest stop stop := rfl

theorem ite_max (c st : Int) : (if c ≤ st then st else c) = max c st :=
  (max_def c st).symm

/-- The resolution loop, run from any cursor against a valid calendar tail,
tiles exactly the interval from `max cursor firstStart` to the window stop. -/
theorem resolve_tiles :
    ∀ (rest : List CalendarEntry) (e : CalendarEntry) (c stop : Int),
      ValidChain (e :: rest) →
      TilesInterval ((resolveLoop (e :: rest) c stop).map (fun x => x.2))
        (max c e.startDate) stop := by
  intro rest
  induction rest with
  | nil =>
    intro e c stop hv
    obtain ⟨st, pl, sn, tf, ed⟩ := e
    have hend : ed = none := hv
    subst hend
    have hst : (⟨st, pl, sn, tf, none⟩ : CalendarEntry).startDate = st := rfl
    rw [resolveLoop_cons_none, hst, ite_max]
    by_cases h1 : stop ≤ st
    · rw [if_pos h1]
      show stop ≤ max c st
      exact le_trans h1 (le_max_right _ _)
    · rw [if_neg h1]
      by_cases h2 : stop ≤ max c st
      · rw [if_pos h2]
        exact h2
      · rw [if_neg h2]
        rw [resolveLoop_nil]
        simp only [List.map_cons, List.map_nil]
        exact ⟨rfl, by omega, le_refl _, le_refl _⟩
  | cons b rest' ih =>
    intro e c stop hv
    obtain ⟨st, pl, sn, tf, ed⟩ := e
    obtain ⟨hend, hlt, hv'⟩ := hv
    have hed : ed = some b.startDate := hend
    subst hed
    have hst : (⟨st, pl, sn, tf, some b.startDate⟩ : CalendarEntry).startDate = st := rfl
    have hlt' : st < b.startDate := hlt
    rw [resolveLoop_cons_some, hst, ite_max]
    by_cases h1 : stop ≤ st
    · rw [if_pos h1]
      show stop ≤ max c st
      exact le_trans h1 (le_max_right _ _)
    · rw [if_neg h1]
      by_cases h2 : stop ≤ max c st
      · rw [if_pos h2]
        exact h2
      · rw [if_neg h2]
        by_cases h3 : b.startDate ≤ max c st
        · rw [if_pos h3]
          have hrec := ih b (max c st) stop hv'
          rw [max_eq_left h3] at hrec
          exact hrec
        · rw [if_neg h3]
          by_cases h4 : b.startDate < stop
          · rw [if_pos h4]
            have hrec := ih b b.startDate stop hv'
            rw [max_self] at hrec
            simp only [List.map_cons]
            exact ⟨rfl, by omega, by omega, hrec⟩
          · rw [if_neg h4]
            have hrec := ih b stop stop hv'
            rw [max_eq_right (by omega : stop ≤ b.startDate)] at hrec
            have hnil := tiles_nil_of_le _ _ _ hrec (by omega)
            simp only [List.map_cons, hnil]
            exact ⟨rfl, by omega, le_refl _, le_refl _⟩

/-- For a valid calendar, coverage by some entry is exactly "at or after the
first start date". -/
theorem chain_covers :
    ∀ (rest : List CalendarEntry) (e : CalendarEntry), ValidChain (e :: rest) →
      ∀ t : Int, (∃ en ∈ e :: rest, entryCovers en t) ↔ e.startDate ≤ t := by
  intro rest
  induction rest with
  | nil =>
    intro e hv t
    have hend : e.endDate = none := hv
    constructor
    · intro h
      obtain ⟨en, hen, hc⟩ := h
      rcases List.mem_singleton.mp hen with he
      subst he
      exact hc.1
    · intro h
      exact ⟨e, List.mem_singleton.mpr rfl, ⟨h, by rw [hend]; trivial⟩⟩
  | cons b rest' ih =>
    intro e hv t
    obtain ⟨hend, hlt, hv'⟩ := hv
    have hiff := ih b hv' t
    constructor
    · intro h
      obtain ⟨en, hen, hc⟩ := h
      rcases List.mem_cons.mp hen with he | he
      · subst he
        exact hc.1
      · have := hiff.mp ⟨en, he, hc⟩
        omega
    · intro h
      by_cases hc : t < b.startDate
      · refine ⟨e, List.mem_cons_self _ _, ⟨h, ?_⟩⟩
        rw [hend]
        exact hc
      · obtain ⟨en, hen, hcov⟩ := hiff.mpr (by omega)
        exact ⟨en, List.mem_cons_of_mem _ hen, hcov⟩

/-- Claim C1: for every valid calendar and reporting window, the (entry,
sub-range) triples emitted by the resolution loop of
`_process_periodic_data` carry pairwise disjoint half-open sub-ranges whose
union is exactly the window intersected with calendar coverage, and every
covered instant of the window lies in exactly one emitted sub-range. -/
theorem calendar_resolution_tiling (e0 : CalendarEntry) (rest : List CalendarEntry)
    (hv : ValidChain (e0 :: rest)) (ws we : Int) :
    ((resolveLoop (e0 :: rest) ws we).map (fun x => x.2)).Pairwise
      (fun p q => p.2 ≤ q.1) ∧
    (∀ t : Int, (∃ x ∈ resolveLoop (e0 :: rest) ws we, x.2.1 ≤ t ∧ t < x.2.2)
      ↔ (ws ≤ t ∧ t < we ∧ ∃ en ∈ e0 :: rest, entryCovers en t)) ∧
    (∀ t : Int, ∀ x ∈ resolveLoop (e0 :: rest) ws we,
      ∀ y ∈ resolveLoop (e0 :: rest) ws we,
      x.2.1 ≤ t → t < x.2.2 → y.2.1 ≤ t → t < y.2.2 → x.2 = y.2) := by
  have htiles := resolve_tiles rest e0 ws we hv
  refine ⟨tiles_pairwise _ _ _ htiles, ?_, ?_⟩
  · intro t
    have hmem := tiles_mem_iff _ _ _ htiles t
    have hcov := chain_covers rest e0 hv t
    constructor
    · intro h
      obtain ⟨x, hx, hin⟩ := h
      have : ∃ p ∈ (resolveLoop (e0 :: rest) ws we).map (fun x => x.2),
          p.1 ≤ t ∧ t < p.2 :=
        ⟨x.2, List.mem_map.mpr ⟨x, hx, rfl⟩, hin⟩
      have hb := hmem.mp this
      rw [max_le_iff] at hb
      exact ⟨hb.1.1, hb.2, hcov.mpr hb.1.2⟩
    · intro h
      obtain ⟨hws, hwe, hc⟩ := h
      have hstart := hcov.mp hc
      obtain ⟨p, hp, hin⟩ := hmem.mpr ⟨by rw [max_le_iff]; exact ⟨hws, hstart⟩, hwe⟩
      obtain ⟨x, hx, he⟩ := List.mem_map.mp hp
      exact ⟨x, hx, by rw [he]; exact hin⟩
  · intro t x hx y hy hx1 hx2 hy1 hy2
    by_cases heq : x.2 = y.2
    · exact heq
    · exfalso
      have hpw := tiles_pairwise _ _ _ htiles
      have hpw' : ((resolveLoop (e0 :: rest) ws we).map (fun x => x.2)).Pairwise
          (fun p q => p.2 ≤ q.1 ∨ q.2 ≤ p.1) :=
        hpw.imp (fun h => Or.inl h)
      have hxm : x.2 ∈ (resolveLoop (e0 :: rest) ws we).map (fun x => x.2) :=
        List.mem_map.mpr ⟨x, hx, rfl⟩
      have hym : y.2 ∈ (resolveLoop (e0 :: rest) ws we).map (fun x => x.2) :=
        List.mem_map.mpr ⟨y, hy, rfl⟩
      have hor := List.Pairwise.forall (fun a b h => h.symm) hpw' hxm hym heq
      rcases hor with h | h <;> omega

/-- Witness for C1 on a concrete two-entry calendar and a window overhanging
both ends of the first entry. -/
theorem calendar_resolution_tiling_witness :
    ((resolveLoop [⟨0, "P", "Summer", [], some 100⟩, ⟨100, "P", "Winter", [], none⟩]
        (-50) 150).map (fun x => x.2)).Pairwise (fun p q => p.2 ≤ q.1) :=
  (calendar_resolution_tiling ⟨0, "P", "Summer", [], some 100⟩
    [⟨100, "P", "Winter", [], none⟩] ⟨rfl, by norm_num, rfl⟩ (-50) 150).1

/-! ## Python-dict association lists -/

/-- Python dict read: first (only) binding of a key. -/
def alookup {β : Type} (nm : String) : List (String × β) → Option β
  | [] => none
  | (k, v) :: rest => if k = nm then some v else alookup nm rest

/-- Python dict assignment: replace the binding in place, else append. -/
def dictInsert {β : Type} (d : List (String × β)) (k : String) (v : β) :
    List (String × β) :=
  if (alookup k d).isSome then d.map (fun p => if p.1 = k then (k, v) else p)
  else d ++ [(k, v)]

theorem alookup_append {β : Type} (nm : String) :
    ∀ (l1 l2 : List (String × β)), alookup nm l1 = none →
      alookup nm (l1 ++ l2) = alookup nm l2 := by
  intro l1
  induction l1 with
  | nil => intro l2 _; rfl
  | cons p rest ih =>
    intro l2 h
    match p with
    | (k, v) =>
      simp only [alookup] at h ⊢
      by_cases hk : k = nm
      · rw [if_pos hk] at h; exact absurd h (by simp)
      · rw [if_neg hk] at h ⊢
        exact ih l2 h

theorem alookup_none_countP {β : Type} (nm : String) :
    ∀ (l : List (String × β)), alookup nm l = none →
      l.countP (fun p => decide (p.1 = nm)) = 0 := by
  intro l
  induction l with
  | nil => intro _; rfl
  | cons p rest ih =>
    intro h
    match p with
    | (k, v) =>
      simp only [alookup] at h
      by_cases hk : k = nm
      · rw [if_pos hk] at h; exact absurd h (by simp)
      · rw [if_neg hk] at h
        simp only [List.countP_cons, ih h]
        simp [hk]

theorem alookup_some_mem_keys {β : Type} (nm : String) :
    ∀ (l : List (String × β)) (v : β), alookup nm l = some v →
      nm ∈ l.map Prod.fst := by
  intro l
  induction l with
  | nil => intro v h; simp [alookup] at h
  | cons p rest ih =>
    intro v h
    match p with
    | (k, w) =>
      simp only [alookup] at h
      by_cases hk : k = nm
      · simp [hk]
      · rw [if_neg hk] at h
        simp only [List.map_cons, List.mem_cons]
        exact Or.inr (ih v h)

theorem nodup_some_countP {β : Type} (nm : String) :
    ∀ (l : List (String × β)) (v : β), (l.map Prod.fst).Nodup →
      alookup nm l = some v → l.countP (fun p => decide (p.1 = nm)) = 1 := by
  intro l
  induction l with
  | nil => intro v _ h; exact absurd h (by simp [alookup])
  | cons p rest ih =>
    intro v hnd h
    match p with
    | (k, w) =>
      simp only [List.map_cons, List.nodup_cons] at hnd
      simp only [alookup] at h
      by_cases hk : k = nm
      · rw [if_pos hk] at h
        have hnone : alookup nm rest = none := by
          cases hrest : alookup nm rest with
          | none => rfl
          | some u =>
            have hmem := alookup_some_mem_keys nm rest u hrest
            rw [← hk] at hmem
            exact absurd hmem hnd.1
        simp only [List.countP_cons, alookup_none_countP nm rest hnone]
        simp [hk]
      · rw [if_neg hk] at h
        simp only [List.countP_cons, ih v hnd.2 h]
        simp [hk]

/-! ## Report-column registration (C7):
`_add_energy_reports`: `if full_name not in self._report_cols:
self._report_cols[full_name] = "number"`, and the identical guard in
`SimpleAgent.usage`. -/

/-- Register a report column name with type "number" unless present. -/
def registerReportCol (reg : List (String × String)) (nm : String) :
    List (String × String) :=
  if (alookup nm reg).isSome then reg else reg ++ [(nm, "number")]

theorem register_of_isSome (reg : List (String × String)) (nm : String)
    (h : (alookup nm reg).isSome) : registerReportCol reg nm = reg := by
  unfold registerReportCol
  rw [if_pos h]

theorem alookup_register_isSome (reg : List (String × String)) (nm : String) :
    (alookup nm (registerReportCol reg nm)).isSome := by
  by_cases h : (alookup nm reg).isSome
  · rw [register_of_isSome reg nm h]; exact h
  · have hnone : alookup nm reg = none := Option.not_isSome_iff_eq_none.mp h
    unfold registerReportCol
    rw [if_neg h]
    rw [alookup_append nm reg _ hnone]
    simp [alookup]

/-- Claim C7: report-column registration is idempotent — registering a name
already present leaves the registry unchanged with its original type value
and exactly one entry for that name, and registering twice equals
registering once. -/
theorem report_registration_idempotent (reg : List (String × String)) (nm : String)
    (hnd : (reg.map Prod.fst).Nodup) :
    registerReportCol (registerReportCol reg nm) nm = registerReportCol reg nm ∧
    (registerReportCol reg nm).countP (fun p => decide (p.1 = nm)) = 1 ∧
    (∀ v, alookup nm reg = some v →
      registerReportCol reg nm = reg ∧
      alookup nm (registerReportCol reg nm) = some v) := by
  refine ⟨?_, ?_, ?_⟩
  · exact register_of_isSome _ _ (alookup_register_isSome reg nm)
  · by_cases h : (alookup nm reg).isSome
    · obtain ⟨v, hv⟩ := Option.isSome_iff_exists.mp h
      rw [register_of_isSome reg nm h]
      exact nodup_some_countP nm reg v hnd hv
    · have hnone : alookup nm reg = none := Option.not_isSome_iff_eq_none.mp h
      unfold registerReportCol
      rw [if_neg h, List.countP_append, alookup_none_countP nm reg hnone]
      simp
  · intro v hv
    have hsome : (alookup nm reg).isSome := by rw [hv]; rfl
    rw [register_of_isSome reg nm hsome]
    exact ⟨rfl, hv⟩

/-- Witness for C7 on a registry holding one column. -/
theorem report_registration_idempotent_witness :
    registerReportCol (registerReportCol
        [("peak Grid to Home (kWh)", "number")] "peak Grid to Home (kWh)")
        "peak Grid to Home (kWh)"
      = registerReportCol [("peak Grid to Home (kWh)", "number")]
          "peak Grid to Home (kWh)" :=
  (report_registration_idempotent [("peak Grid to Home (kWh)", "number")]
    "peak Grid to Home (kWh)" (by simp)).1

/-! ## ISO-UTC time parsing (`safe_iso_utc_to_dt`, C8) -/

/-- A python aware datetime, reduced to the instant it denotes (epoch
seconds) and the utcoffset of its representation (seconds). -/
structure AwareDT where
  instant : Int
  offset : Int
deriving DecidableEq, Repr

/-- `datetime.astimezone`: same instant, re-represented in the new zone. -/
def astimezone (dt : AwareDT) (tzOffset : Int) : AwareDT :=
  ⟨dt.instant, tzOffset⟩

def digitVal (c : Char) : Option Nat :=
  if c.isDigit then some (c.toNat - 48) else none

def num2 (a b : Char) : Option Nat := do
  let x ← digitVal a
  let y ← digitVal b
  pure (10 * x + y)

def num4 (a b c d : Char) : Option Nat := do
  let x ← num2 a b
  let y ← num2 c d
  pure (100 * x + y)

def isLeap (y : Nat) : Bool :=
  (y % 4 == 0 && y % 100 != 0) || (y % 400 == 0)

def daysInMonth (y m : Nat) : Nat :=
  if m = 2 then (if isLeap y then 29 else 28)
  else if m = 4 ∨ m = 6 ∨ m = 9 ∨ m = 11 then 30
  else 31

/-- Days between 1970-01-01 and a civil date (standard era/yoe civil-date
arithmetic; all intermediate quantities are non-negative for years ≥ 1). -/
def daysFromCivil (y m d : Int) : Int :=
  let yAdj := if m ≤ 2 then y - 1 else y
  let era := Int.ediv (if 0 ≤ yAdj then yAdj else yAdj - 399) 400
  let yoe := yAdj - era * 400
  let mp := Int.emod (m + 9) 12
  let doy := Int.ediv (153 * mp + 2) 5 + d - 1
  let doe := yoe * 365 + Int.ediv yoe 4 - Int.ediv yoe 100 + doy
  era * 146097 + doe - 719468

/-- Model of python `datetime.fromisoformat` on the core
`YYYY-MM-DDTHH:MM:SS` form (pre-3.11 python accepts exactly this shape, up
to optional fractions and offsets that the usage proxy does not send),
returning the naive fields as epoch-style seconds. Out-of-range fields
raise, i.e. `none`. -/
def fromisoformat (s : String) : Option Int :=
  match s.data with
  | [y1, y2, y3, y4, '-', mo1, mo2, '-', d1, d2, 'T',
     h1, h2, ':', mi1, mi2, ':', s1, s2] => do
    let y ← num4 y1 y2 y3 y4
    let mo ← num2 mo1 mo2
    let d ← num2 d1 d2
    let h ← num2 h1 h2
    let mi ← num2 mi1 mi2
    let se ← num2 s1 s2
    if 1 ≤ y ∧ 1 ≤ mo ∧ mo ≤ 12 ∧ 1 ≤ d ∧ d ≤ daysInMonth y mo
        ∧ h ≤ 23 ∧ mi ≤ 59 ∧ se ≤ 59 then
      some (86400 * daysFromCivil (y : Int) (mo : Int) (d : Int)
        + 3600 * (h : Int) + 60 * (mi : Int) + (se : Int))
    else none
  | _ => none

/-- `safe_iso_utc_to_dt` of engine.py: check the literal trailing `Z`
(an empty string steps on python's `iso_utc[-1]` IndexError first), strip
it, parse the rest, force UTC, and convert to the supplied timezone. -/
def safeIsoUtcToDt (isoUtc : String) (newTz : Option Int) : Except String AwareDT :=
  match isoUtc.data.getLast? with
  | none => .error "IndexError: string index out of range"
  | some c =>
    if c ≠ 'Z' then
      .error ("Expected isoformat utc time ending Z. Got " ++ isoUtc)
    else
      match fromisoformat (isoUtc.dropRight 1) with
      | none => .error "ValueError: invalid isoformat string"
      | some naive =>
        let dt : AwareDT := ⟨naive, 0⟩
        match newTz with
        | none => .ok dt
        | some tz => .ok (astimezone dt tz)

/-- Claim C8: a query time-range string not ending in the literal `Z` is
rejected with an error before any data processing, and a well-formed
ISO-8601 string ending in `Z` parses to the instant read as UTC and is
returned converted to the supplied plan-local timezone. -/
theorem safe_iso_utc_spec (s : String) (tz : Int) :
    (s.data.getLast? ≠ some 'Z' → ∃ e, safeIsoUtcToDt s (some tz) = .error e) ∧
    (∀ n : Int, s.data.getLast? = some 'Z' → fromisoformat (s.dropRight 1) = some n →
      safeIsoUtcToDt s (some tz) = .ok ⟨n, tz⟩) := by
  constructor
  · intro hnz
    unfold safeIsoUtcToDt
    cases hl : s.data.getLast? with
    | none => exact ⟨"IndexError: string index out of range", rfl⟩
    | some c =>
      have hc : c ≠ 'Z' := fun he => hnz (by rw [hl, he])
      dsimp only
      rw [if_pos hc]
      exact ⟨"Expected isoformat utc time ending Z. Got " ++ s, rfl⟩
  · intro n hz hp
    unfold safeIsoUtcToDt
    rw [hz]
    dsimp only
    rw [if_neg (by simp : ¬('Z' ≠ 'Z'))]
    rw [hp]
    rfl

/-- Witness for C8: the error branch on an offset-style timestamp without
`Z`, and the success branch on a concrete UTC timestamp converted to a
+10:00 (36000 s) zone. -/
theorem safe_iso_utc_spec_witness :
    (∃ e, safeIsoUtcToDt "2023-01-02T03:04:05" (some 36000) = .error e) ∧
    safeIsoUtcToDt "2023-01-02T03:04:05Z" (some 36000) = .ok ⟨1672628645, 36000⟩ :=
  ⟨(safe_iso_utc_spec "2023-01-02T03:04:05" 36000).1 (by decide),
    (safe_iso_utc_spec "2023-01-02T03:04:05Z" 36000).2 1672628645 (by decide) (by decide)⟩

/-! ## Configuration documents and loading
(`UsagePlan.__init__`/`_init_seasons`, `CalendarEntry.__post_init__`,
`UsageEngine._load_calendar`, `UsageEngine.reload_config`) -/

/-- One schedule object of a season's json list: `{schedule, days?, periods?}`.
`periods` is the ordered time-of-day → tariff mapping (times pre-parsed to
seconds; `time.fromisoformat` is an external collaborator). -/
structure ScheduleJson where
  schedule : Option String
  days : Option (List Nat)
  periods : Option (List (Nat × String))
deriving DecidableEq, Repr

/-- One plan object: `{name, agent, report, seasons}`. -/
structure PlanJson where
  name : Option String
  agent : Option String
  report : List String
  seasons : Option (List (String × List ScheduleJson))
deriving DecidableEq, Repr

/-- One calendar value object: `{plan?, season?, tariffs?}` with raw string
rate labels. -/
structure CalEntryJson where
  plan : Option String
  season : Option String
  tariffs : Option (List (String × List (String × ℚ)))
deriving DecidableEq, Repr

/-- The configuration document (settings are handled by `_init_settings`,
an external collaborator preceding the code modeled here); a `none` section
is a missing top-level key. Calendar dates are pre-parsed local datetimes
(the timezone forcing of `_load_calendar` is absorbed in the parse). -/
structure Config where
  plans : Option (List PlanJson)
  calendar : Option (List (Int × CalEntryJson))
deriving DecidableEq, Repr

/-- A resolved season: schedule name → TariffSchedule, in dict order. -/
abbrev Season := List (String × TariffSchedule)

/-- The per-schedule body of `_init_seasons`: build the kwarg dict (name
always; days and periods only when present, periods through `mkPeriods`),
then either `dataclasses.replace` the previous season's schedule of the same
name or construct a fresh `TariffSchedule`, which requires both fields. -/
def resolveSchedule (prevSeason : Option Season) (sj : ScheduleJson) :
    Except String (String × TariffSchedule) :=
  match sj.schedule with
  | none => .error "A schedule is missing a 'schedule': 'name' pair."
  | some sname =>
    match (match sj.periods with
           | none => Except.ok (none : Option (List TariffPeriod))
           | some pj =>
             match mkPeriods pj with
             | none => Except.error "IndexError: empty 'periods' table"
             | some ps => Except.ok (some ps)) with
    | .error e => .error e
    | .ok periodsKw =>
      match prevSeason.bind (fun ps => alookup sname ps) with
      | some prevSched =>
        .ok (sname, { name := sname,
                      days := (sj.days).getD prevSched.days,
                      periods := periodsKw.getD prevSched.periods })
      | none =>
        match sj.days, periodsKw with
        | some d, some p => .ok (sname, ⟨sname, d, p⟩)
        | _, _ =>
          .error "Schedule is either missing 'days' or 'periods' entries or contains other errors."

/-- The schedule loop of `_init_seasons` over one season's json list,
accumulating `season[schedule_name] = ...` dict assignments. -/
def buildSeasonAux (prevSeason : Option Season) :
    List ScheduleJson → Season → Except String Season
  | [], acc => .ok acc
  | sj :: rest, acc =>
    match resolveSchedule prevSeason sj with
    | .error e => .error e
    | .ok (nm, sch) => buildSeasonAux prevSeason rest (dictInsert acc nm sch)

/-- The trailing loop of `_init_seasons`: duplicate any schedule of the
previous season that the new season did not mention. -/
def copyMissing (base : Season) (prev : Season) : Season :=
  prev.foldl (fun acc p => if (alookup p.1 acc).isSome then acc else acc ++ [p]) base

/-- One season of `_init_seasons`. -/
def buildSeason (prevSeason : Option Season) (sjs : List ScheduleJson) :
    Except String Season :=
  match buildSeasonAux prevSeason sjs [] with
  | .error e => .error e
  | .ok base =>
    match prevSeason with
    | none => .ok base
    | some prev => .ok (copyMissing base prev)

/-- The season loop of `_init_seasons`, threading `prev_season`. -/
def initSeasonsAux : Option Season → List (String × List ScheduleJson) →
    List (String × Season) → Except String (List (String × Season))
  | _, [], acc => .ok acc
  | prev, (sn, sjs) :: rest, acc =>
    match buildSeason prev sjs with
    | .error e => .error e
    | .ok s => initSeasonsAux (some s) rest (dictInsert acc sn s)

/-- `UsagePlan._init_seasons`. -/
def initSeasons (planName : String)
    (seasonsJson : Option (List (String × List ScheduleJson))) :
    Except String (List (String × Season)) :=
  match seasonsJson with
  | none => .error ("No seasons defined for usage plan " ++ planName)
  | some sjs => initSeasonsAux none sjs []

/-- A loaded usage plan (agents carry no state the claims need beyond the
validated type name). -/
structure UsagePlan where
  name : String
  agent : String
  reportCols : List PDColName
  seasons : List (String × Season)
deriving DecidableEq, Repr

/-- `UsagePlan.__init__`: name, `_get_agent` (only "Simple" is known),
report-column validation, then `_init_seasons`. -/
def buildPlan (pj : PlanJson) : Except String UsagePlan := do
  let some nm := pj.name
    | throw "Usage plan in input has no 'name' field."
  let some ag := pj.agent
    | throw ("Missing usage agent for usage plan " ++ nm ++ ".")
  match ag with
  | "Simple" => pure ()
  | _ => throw ("Unknown agent " ++ ag ++ " in usage plane " ++ nm)
  let cols ← pj.report.mapM (fun s =>
    match PDColName.fromStr s with
    | some c => pure c
    | none => throw ("Unrecognised report name " ++ s ++ " for usage plan."))
  let ss ← initSeasons nm pj.seasons
  pure ⟨nm, ag, cols, ss⟩

/-- `TariffSchedule.tariff_defined`. -/
def tariffDefinedSched (sch : TariffSchedule) (t : String) : Bool :=
  sch.periods.any (fun p => p.tariff == t)

/-- `UsagePlan.tariff_defined`. -/
def tariffDefined (pl : UsagePlan) (seasonName t : String) : Bool :=
  match alookup seasonName pl.seasons with
  | none => false
  | some s => s.any (fun q => tariffDefinedSched q.2 t)

/-- `UsagePlan.season_defined`. -/
def seasonDefined (pl : UsagePlan) (seasonName : String) : Bool :=
  (alookup seasonName pl.seasons).isSome

/-- Rate-label sanitation of `CalendarEntry.__post_init__` for a raw string
rate table. -/
def sanitizeRates (rates : List (String × ℚ)) :
    Except String (List (PDColName × ℚ)) :=
  rates.mapM (fun rv =>
    match PDColName.fromStr rv.1 with
    | some c => pure (c, rv.2)
    | none => throw ("Invalid rate label " ++ rv.1 ++ " in rate table"))

/-- `__post_init__` handling of a tariffs mapping supplied as raw json:
check each tariff is defined for the plan/season, then sanitize its labels. -/
def validateRawTariffs (pl : UsagePlan) (seasonName : String)
    (traw : List (String × List (String × ℚ))) :
    Except String (List (String × List (PDColName × ℚ))) :=
  traw.mapM (fun tv =>
    if tariffDefined pl seasonName tv.1 then
      (sanitizeRates tv.2).map (fun rt => (tv.1, rt))
    else .error ("Undefined tariff " ++ tv.1 ++ " in calendar entry."))

/-- `__post_init__` handling of an inherited (already sanitized) tariffs
mapping: the defined-tariff check runs again against the (possibly new)
plan and season; the label loop breaks out on the first `PDColName` key. -/
def checkTariffs (pl : UsagePlan) (seasonName : String)
    (ts : List (String × List (PDColName × ℚ))) : Except String Unit :=
  ts.forM (fun tv =>
    if tariffDefined pl seasonName tv.1 then .ok ()
    else .error ("Undefined tariff " ++ tv.1 ++ " in calendar entry."))

/-- Incremental-diff resolution of one calendar field: present json value
wins, else the previous resolved entry's value; the first entry must supply
the field (python raises out of the dataclass construction). -/
def resolveField (jf : Option String) (prevF : Option String) :
    Except String String :=
  match jf, prevF with
  | some p, _ => .ok p
  | none, some pf => .ok pf
  | none, none =>
    .error "First calendar entry must have all calendar fields defined."

/-- One calendar entry of `_load_calendar`: build kwargs over the previous
resolved entry (`dataclasses.replace`) and run the `__post_init__`
validation (plan exists, season defined, tariffs defined and sanitized). -/
def mkCalendarEntry (plans : List (String × UsagePlan))
    (prev : Option CalendarEntry) (d : Int) (j : CalEntryJson) :
    Except String CalendarEntry :=
  match resolveField j.plan (prev.map (fun pe => pe.plan)) with
  | .error e => .error e
  | .ok planName =>
    match resolveField j.season (prev.map (fun pe => pe.season)) with
    | .error e => .error e
    | .ok seasonName =>
      match alookup planName plans with
      | none =>
        .error ("Calendar specifies plan " ++ planName
          ++ ", but this usage plan is undefined.")
      | some pl =>
        if seasonDefined pl seasonName then
          match j.tariffs, prev with
          | some raw, _ =>
            match validateRawTariffs pl seasonName raw with
            | .error e => .error e
            | .ok ts => .ok ⟨d, planName, seasonName, ts, none⟩
          | none, some pe =>
            match checkTariffs pl seasonName pe.tariffs with
            | .error e => .error e
            | .ok _ => .ok ⟨d, planName, seasonName, pe.tariffs, none⟩
          | none, none =>
            .error "First calendar entry must have all calendar fields defined."
        else
          .error ("Calendar specifies season " ++ seasonName
            ++ ", but this season is not defined for the usage plan.")

/-- The entry loop of `_load_calendar` over the date-sorted items.
`cls._calendar = {}` has already run, so on a raised error the entries
committed before the failure are what the dict holds. -/
def loadCalendarAux (plans : List (String × UsagePlan)) :
    Option CalendarEntry → List (Int × CalEntryJson) →
    List CalendarEntry × Option String
  | _, [] => ([], none)
  | prev, (d, j) :: rest =>
    match mkCalendarEntry plans prev d j with
    | .error e => ([], some e)
    | .ok en =>
      let t := loadCalendarAux plans (some en) rest
      (en :: t.1, t.2)

/-- The trailing `pairwise` loop of `_load_calendar`: set each entry's end
date to the next entry's start date; the final entry keeps `none`. -/
def chainEndDates : List CalendarEntry → List CalendarEntry
  | [] => []
  | [e] => [e]
  | a :: b :: rest =>
    { a with endDate := some b.startDate } :: chainEndDates (b :: rest)

/-- Stable ascending insertion (the `dict(sorted(...))` date sort). -/
def insertByDate (x : Int × CalEntryJson) :
    List (Int × CalEntryJson) → List (Int × CalEntryJson)
  | [] => [x]
  | y :: ys => if x.1 < y.1 then x :: y :: ys else y :: insertByDate x ys

def sortByDate : List (Int × CalEntryJson) → List (Int × CalEntryJson)
  | [] => []
  | x :: xs => insertByDate x (sortByDate xs)

/-- The committed class-level configuration of `UsageEngine`. -/
structure EngineState where
  plans : List (String × UsagePlan)
  calendar : List CalendarEntry
deriving DecidableEq, Repr

/-- The plan loop of `reload_config` after `cls._plans = {}`: on a raised
error, the plans committed before the failure are what the dict holds. -/
def buildPlansAux : List PlanJson → List (String × UsagePlan) →
    List (String × UsagePlan) × Option String
  | [], acc => (acc, none)
  | pj :: rest, acc =>
    match buildPlan pj with
    | .error e => (acc, some e)
    | .ok pl => buildPlansAux rest (dictInsert acc pl.name pl)

/-- `UsageEngine.reload_config` under the thread lock. `_init_settings`
precedes the code modeled here and is an external collaborator (a failure
there also leaves plans and calendar untouched). The mutation order is the
source's: the plans dict is reset and rebuilt before `_load_calendar` resets
and rebuilds the calendar dict, and nothing restores either on failure. -/
def reloadConfig (st : EngineState) (cfg : Config) : EngineState × Option String :=
  match cfg.plans with
  | none => (st, some "No usage plan data in config file.")
  | some pjs =>
    let built := buildPlansAux pjs []
    match built.2 with
    | some e => ({ st with plans := built.1 }, some e)
    | none =>
      match cfg.calendar with
      | none => ({ st with plans := built.1 }, some "No calendar data in config file.")
      | some cal =>
        let loaded := loadCalendarAux built.1 none (sortByDate cal)
        match loaded.2 with
        | some e => ({ plans := built.1, calendar := loaded.1 }, some e)
        | none => ({ plans := built.1, calendar := chainEndDates loaded.1 }, none)

/-! ### C3: reload atomicity -/

/-- A valid plan document named "P" with one season "Summer". -/
def planPJson : PlanJson :=
  ⟨some "P", some "Simple", ["GRID_TO_HOME"],
    some [("Summer", [⟨some "sched", some [0, 1, 2, 3, 4, 5, 6], some [(0, "flat")]⟩])]⟩

/-- A previously committed (last-good) plan. -/
def oldPlan : UsagePlan :=
  ⟨"Old", "Simple", [], [("S", [("sch", ⟨"sch", [0], [⟨"flat", 0, 0⟩]⟩)])]⟩

/-- A previously committed engine state: one plan, one calendar entry. -/
def oldState : EngineState := ⟨[("Old", oldPlan)], [⟨0, "Old", "S", [], none⟩]⟩

/-- A config whose plans load fine but whose calendar names the undefined
plan "Q". -/
def badConfig : Config :=
  ⟨some [planPJson], some [(0, ⟨some "Q", some "Summer", some []⟩)]⟩

/-- Claim C3, counterexample: reloading `badConfig` over `oldState` raises
(the calendar entry names an undefined plan), yet the committed plans and
calendar are NOT left in their last-good state — the plans dict already
holds the new document's plans and the calendar dict has been reset. -/
theorem reload_atomicity_cex :
    ((reloadConfig oldState badConfig).2.isSome = true) ∧
    ¬ ((reloadConfig oldState badConfig).1.plans = oldState.plans ∧
       (reloadConfig oldState badConfig).1.calendar = oldState.calendar) := by
  decide

/-- Claim C3 (corrected): the reload is not atomic. Whenever the plans
section loads successfully and the calendar load then fails, the error
propagates with the plans dict already replaced by the new document's plans
and the calendar dict holding only the entries committed before the failure
(the previous calendar is lost). Only a failure before the plans reset
(e.g. a missing plans section) leaves the last-good pair untouched. -/
theorem reload_calendar_failure_not_atomic (st : EngineState) (cfg : Config)
    (pjs : List PlanJson) (hp : cfg.plans = some pjs)
    (hb : (buildPlansAux pjs []).2 = none)
    (cal : List (Int × CalEntryJson)) (hc : cfg.calendar = some cal)
    (hf : (loadCalendarAux (buildPlansAux pjs []).1 none (sortByDate cal)).2.isSome) :
    (reloadConfig st cfg).2.isSome ∧
    (reloadConfig st cfg).1.plans = (buildPlansAux pjs []).1 ∧
    (reloadConfig st cfg).1.calendar
      = (loadCalendarAux (buildPlansAux pjs []).1 none (sortByDate cal)).1 := by
  obtain ⟨e, he⟩ := Option.isSome_iff_exists.mp hf
  unfold reloadConfig
  rw [hp]
  dsimp only
  rw [hb]
  dsimp only
  rw [hc]
  dsimp only
  rw [he]
  dsimp only
  exact ⟨rfl, rfl, rfl⟩

/-- Witness for C3 (corrected) at the concrete bad configuration. -/
theorem reload_calendar_failure_not_atomic_witness :
    (reloadConfig oldState badConfig).2.isSome ∧
    (reloadConfig oldState badConfig).1.plans = (buildPlansAux [planPJson] []).1 ∧
    (reloadConfig oldState badConfig).1.calendar
      = (loadCalendarAux (buildPlansAux [planPJson] []).1 none
          (sortByDate [(0, ⟨some "Q", some "Summer", some []⟩)])).1 :=
  reload_calendar_failure_not_atomic oldState badConfig [planPJson] rfl (by decide)
    [(0, ⟨some "Q", some "Summer", some []⟩)] rfl (by decide)

/-! ### C4: incremental-diff construction -/

theorem alookup_append_some {β : Type} (nm : String) (v : β) :
    ∀ (l1 l2 : List (String × β)), alookup nm l1 = some v →
      alookup nm (l1 ++ l2) = some v := by
  intro l1
  induction l1 with
  | nil => intro l2 h; simp [alookup] at h
  | cons p rest ih =>
    intro l2 h
    match p with
    | (k, w) =>
      simp only [alookup] at h ⊢
      by_cases hk : k = nm
      · rw [if_pos hk] at h ⊢; exact h
      · rw [if_neg hk] at h ⊢; exact ih l2 h

theorem alookup_map_replace {β : Type} (k : String) (v : β) :
    ∀ d : List (String × β), (alookup k d).isSome →
      alookup k (d.map (fun p => if p.1 = k then (k, v) else p)) = some v := by
  intro d
  induction d with
  | nil => intro h; simp [alookup] at h
  | cons p rest ih =>
    intro h
    by_cases hk : p.1 = k
    · simp only [List.map_cons]
      rw [if_pos hk]
      simp only [alookup]
      simp
    · simp only [List.map_cons]
      rw [if_neg hk]
      simp only [alookup] at h ⊢
      rw [if_neg hk] at h ⊢
      exact ih h

theorem alookup_map_replace_ne {β : Type} (k nm : String) (v : β) (hne : k ≠ nm) :
    ∀ d : List (String × β),
      alookup nm (d.map (fun p => if p.1 = k then (k, v) else p)) = alookup nm d := by
  intro d
  induction d with
  | nil => rfl
  | cons p rest ih =>
    simp only [List.map_cons]
    by_cases hk : p.1 = k
    · rw [if_pos hk]
      simp only [alookup]
      have hpn : ¬ p.1 = nm := by rw [hk]; exact hne
      rw [if_neg hne, if_neg hpn]
      exact ih
    · rw [if_neg hk]
      simp only [alookup]
      by_cases hn : p.1 = nm
      · rw [if_pos hn, if_pos hn]
      · rw [if_neg hn, if_neg hn]
        exact ih

theorem alookup_dictInsert_self {β : Type} (d : List (String × β)) (k : String) (v : β) :
    alookup k (dictInsert d k v) = some v := by
  unfold dictInsert
  by_cases h : (alookup k d).isSome
  · rw [if_pos h]
    exact alookup_map_replace k v d h
  · rw [if_neg h]
    rw [alookup_append k d [(k, v)] (Option.not_isSome_iff_eq_none.mp h)]
    simp [alookup]

theorem alookup_dictInsert_ne {β : Type} (d : List (String × β)) (k nm : String)
    (v : β) (hne : k ≠ nm) : alookup nm (dictInsert d k v) = alookup nm d := by
  unfold dictInsert
  by_cases h : (alookup k d).isSome
  · rw [if_pos h]
    exact alookup_map_replace_ne k nm v hne d
  · rw [if_neg h]
    cases hd : alookup nm d with
    | some u => exact alookup_append_some nm u d [(k, v)] hd
    | none =>
      rw [alookup_append nm d [(k, v)] hd]
      simp only [alookup]
      rw [if_neg hne]

theorem copyMissing_preserve (nm : String) (v : TariffSchedule) :
    ∀ (prev base : Season), alookup nm base = some v →
      alookup nm (copyMissing base prev) = some v := by
  intro prev
  induction prev with
  | nil => intro base h; exact h
  | cons p prest ih =>
    intro base h
    simp only [copyMissing, List.foldl_cons] at *
    by_cases hp : (alookup p.1 base).isSome
    · rw [if_pos hp]
      exact ih base h
    · rw [if_neg hp]
      exact ih (base ++ [p]) (alookup_append_some nm v base [p] h)

theorem copyMissing_copies (nm : String) :
    ∀ (prev base : Season) (q : TariffSchedule),
      alookup nm base = none → alookup nm prev = some q →
      alookup nm (copyMissing base prev) = some q := by
  intro prev
  induction prev with
  | nil => intro base q _ hp; simp [alookup] at hp
  | cons p prest ih =>
    intro base q hb hp
    simp only [copyMissing, List.foldl_cons] at *
    by_cases hk : p.1 = nm
    · have hq : p.2 = q := by
        simp only [alookup] at hp
        rw [if_pos hk] at hp
        exact Option.some.inj hp
      have hps : ¬ (alookup p.1 base).isSome := by
        rw [hk, hb]; simp
      rw [if_neg hps]
      have hbp : alookup nm (base ++ [p]) = some p.2 := by
        rw [alookup_append nm base [p] hb]
        simp only [alookup]
        rw [if_pos hk]
      rw [← hq]
      exact copyMissing_preserve nm p.2 prest (base ++ [p]) hbp
    · have hp' : alookup nm prest = some q := by
        simp only [alookup] at hp
        rw [if_neg hk] at hp
        exact hp
      by_cases hps : (alookup p.1 base).isSome
      · rw [if_pos hps]
        exact ih base q hb hp'
      · rw [if_neg hps]
        have hb' : alookup nm (base ++ [p]) = none := by
          rw [alookup_append nm base [p] hb]
          simp only [alookup]
          rw [if_neg hk]
        exact ih (base ++ [p]) q hb' hp'

/-- A successfully resolved schedule carries exactly the json's schedule
name. -/
theorem resolveSchedule_name (prevSeason : Option Season) (sj : ScheduleJson)
    (nm : String) (sch : TariffSchedule)
    (h : resolveSchedule prevSeason sj = .ok (nm, sch)) : sj.schedule = some nm := by
  unfold resolveSchedule at h
  cases hs : sj.schedule with
  | none => rw [hs] at h; cases h
  | some sname =>
    rw [hs] at h
    dsimp only at h
    have hn : sname = nm := by
      cases hp : sj.periods with
      | none =>
        rw [hp] at h
        dsimp only at h
        cases hb : prevSeason.bind (fun ps => alookup sname ps) with
        | some prevSched => rw [hb] at h; dsimp only at h; cases h; rfl
        | none =>
          rw [hb] at h
          dsimp only at h
          cases hd : sj.days with
          | some d => rw [hd] at h; dsimp only at h; cases h
          | none => rw [hd] at h; dsimp only at h; cases h
      | some pj =>
        rw [hp] at h
        dsimp only at h
        cases hm : mkPeriods pj with
        | none => rw [hm] at h; cases h
        | some pl =>
          rw [hm] at h
          dsimp only at h
          cases hb : prevSeason.bind (fun ps => alookup sname ps) with
          | some prevSched => rw [hb] at h; dsimp only at h; cases h; rfl
          | none =>
            rw [hb] at h
            dsimp only at h
            cases hd : sj.days with
            | some d => rw [hd] at h; dsimp only at h; cases h; rfl
            | none => rw [hd] at h; dsimp only at h; cases h
    rw [hn]

/-- Field inheritance of `dataclasses.replace` in `_init_seasons`: a
schedule json that finds its name in the previous season and omits `days`
or `periods` resolves with that field taken from the previous schedule. -/
theorem resolveSchedule_inherits (ps : Season) (sj : ScheduleJson)
    (nm : String) (sch : TariffSchedule)
    (h : resolveSchedule (some ps) sj = .ok (nm, sch))
    (q : TariffSchedule) (hq : alookup nm ps = some q) :
    (sj.days = none → sch.days = q.days) ∧
    (sj.periods = none → sch.periods = q.periods) := by
  have hname := resolveSchedule_name (some ps) sj nm sch h
  unfold resolveSchedule at h
  rw [hname] at h
  dsimp only [Option.bind] at h
  rw [hq] at h
  cases hp : sj.periods with
  | none =>
    rw [hp] at h
    dsimp only at h
    cases h
    exact ⟨fun hd => by rw [hd]; rfl, fun _ => rfl⟩
  | some pj =>
    rw [hp] at h
    dsimp only at h
    cases hm : mkPeriods pj with
    | none => rw [hm] at h; cases h
    | some pl =>
      rw [hm] at h
      dsimp only at h
      cases h
      refine ⟨fun hd => by rw [hd]; rfl, fun hpn => ?_⟩
      exact absurd hpn (by simp)

theorem buildSeasonAux_preserve (prevSeason : Option Season) (nm : String) :
    ∀ (sjs : List ScheduleJson) (acc s : Season),
      buildSeasonAux prevSeason sjs acc = .ok s →
      (∀ sj ∈ sjs, sj.schedule ≠ some nm) →
      alookup nm s = alookup nm acc := by
  intro sjs
  induction sjs with
  | nil =>
    intro acc s h _
    cases h
    rfl
  | cons sj rest ih =>
    intro acc s h hno
    simp only [buildSeasonAux] at h
    cases hr : resolveSchedule prevSeason sj with
    | error e => rw [hr] at h; cases h
    | ok p =>
      rw [hr] at h
      dsimp only at h
      match p, hr with
      | (nm', sch), hr =>
        have hname := resolveSchedule_name prevSeason sj nm' sch hr
        have hne : nm' ≠ nm := by
          intro he
          exact hno sj (List.mem_cons_self sj rest) (by rw [hname, he])
        rw [ih (dictInsert acc nm' sch) s h
          (fun sj' hsj' => hno sj' (List.mem_cons_of_mem sj hsj'))]
        exact alookup_dictInsert_ne acc nm' nm sch hne

theorem buildSeasonAux_found (ps : Season) :
    ∀ (sjs : List ScheduleJson) (acc s : Season),
      buildSeasonAux (some ps) sjs acc = .ok s →
      (sjs.filterMap (fun sj => sj.schedule)).Nodup →
      ∀ sj ∈ sjs, ∀ nm, sj.schedule = some nm →
        ∃ sch, resolveSchedule (some ps) sj = .ok (nm, sch) ∧
          alookup nm s = some sch := by
  intro sjs
  induction sjs with
  | nil => intro acc s _ _ sj hsj; simp at hsj
  | cons sj0 rest ih =>
    intro acc s h hnd sj hsj nm hnm
    simp only [buildSeasonAux] at h
    cases hr : resolveSchedule (some ps) sj0 with
    | error e => rw [hr] at h; cases h
    | ok p =>
      rw [hr] at h
      dsimp only at h
      match p, hr with
      | (nm0, sch0), hr =>
        have hname0 := resolveSchedule_name (some ps) sj0 nm0 sch0 hr
        have hfm : (sj0 :: rest).filterMap (fun sj => sj.schedule)
            = nm0 :: rest.filterMap (fun sj => sj.schedule) := by
          simp [List.filterMap_cons, hname0]
        rcases List.mem_cons.mp hsj with he | he
        · subst he
          have hn : nm0 = nm := by
            rw [hname0] at hnm
            exact Option.some.inj hnm
          subst hn
          refine ⟨sch0, hr, ?_⟩
          have hnotin : ∀ sj' ∈ rest, sj'.schedule ≠ some nm0 := by
            intro sj' hsj' hcon
            have : nm0 ∈ rest.filterMap (fun sj => sj.schedule) :=
              List.mem_filterMap.mpr ⟨sj', hsj', hcon⟩
            rw [hfm] at hnd
            exact (List.nodup_cons.mp hnd).1 this
          rw [buildSeasonAux_preserve (some ps) nm0 rest (dictInsert acc nm0 sch0) s h hnotin]
          exact alookup_dictInsert_self acc nm0 sch0
        · have hnd' : (rest.filterMap (fun sj => sj.schedule)).Nodup := by
            rw [hfm] at hnd
            exact (List.nodup_cons.mp hnd).2
          exact ih (dictInsert acc nm0 sch0) s h hnd' sj he nm hnm

/-- The two inheritance behaviours of one season step of `_init_seasons`
over a previous season: a mentioned schedule inherits its omitted fields
from the previous season's schedule of the same name, and an unmentioned
schedule is copied whole. -/
theorem buildSeason_spec (ps : Season) (sjs : List ScheduleJson) (s : Season)
    (h : buildSeason (some ps) sjs = .ok s)
    (hnd : (sjs.filterMap (fun sj => sj.schedule)).Nodup) :
    (∀ sj ∈ sjs, ∀ nm, sj.schedule = some nm → ∀ q, alookup nm ps = some q →
      ∃ r, alookup nm s = some r ∧
        (sj.days = none → r.days = q.days) ∧
        (sj.periods = none → r.periods = q.periods)) ∧
    (∀ nm q, alookup nm ps = some q → (∀ sj ∈ sjs, sj.schedule ≠ some nm) →
      alookup nm s = some q) := by
  unfold buildSeason at h
  cases hb : buildSeasonAux (some ps) sjs [] with
  | error e => rw [hb] at h; cases h
  | ok base =>
    rw [hb] at h
    dsimp only at h
    cases h
    constructor
    · intro sj hsj nm hnm q hq
      obtain ⟨sch, hr, hlk⟩ := buildSeasonAux_found ps sjs [] base hb hnd sj hsj nm hnm
      have hinh := resolveSchedule_inherits ps sj nm sch hr q hq
      exact ⟨sch, copyMissing_preserve nm sch ps base hlk, hinh.1, hinh.2⟩
    · intro nm q hq hno
      have hbase : alookup nm base = alookup nm ([] : Season) :=
        buildSeasonAux_preserve (some ps) nm sjs [] base hb hno
      exact copyMissing_copies nm ps base q (by rw [hbase]; rfl) hq

/-- Field characterization of a successfully resolved calendar entry. -/
theorem mkCalendarEntry_ok_fields (plans : List (String × UsagePlan))
    (prev : Option CalendarEntry) (d : Int) (j : CalEntryJson) (en : CalendarEntry)
    (h : mkCalendarEntry plans prev d j = .ok en) :
    resolveField j.plan (prev.map (fun pe => pe.plan)) = .ok en.plan ∧
    resolveField j.season (prev.map (fun pe => pe.season)) = .ok en.season ∧
    (j.tariffs = none → ∃ pe, prev = some pe ∧ en.tariffs = pe.tariffs) := by
  unfold mkCalendarEntry at h
  cases hrp : resolveField j.plan (prev.map (fun pe => pe.plan)) with
  | error e => rw [hrp] at h; cases h
  | ok planName =>
    rw [hrp] at h
    dsimp only at h
    cases hrs : resolveField j.season (prev.map (fun pe => pe.season)) with
    | error e => rw [hrs] at h; cases h
    | ok seasonName =>
      rw [hrs] at h
      dsimp only at h
      cases hpl : alookup planName plans with
      | none => rw [hpl] at h; cases h
      | some pl =>
        rw [hpl] at h
        dsimp only at h
        by_cases hsd : seasonDefined pl seasonName
        case neg => rw [if_neg hsd] at h; cases h
        case pos =>
          rw [if_pos hsd] at h
          cases hjt : j.tariffs with
          | some raw =>
            rw [hjt] at h
            dsimp only at h
            cases hv : validateRawTariffs pl seasonName raw with
            | error e => rw [hv] at h; cases h
            | ok ts =>
              rw [hv] at h
              dsimp only at h
              cases h
              refine ⟨rfl, rfl, fun hc => ?_⟩
              simp [hjt] at hc
          | none =>
            rw [hjt] at h
            cases prev with
            | none => cases h
            | some pe =>
              try dsimp only at h
              cases hc : checkTariffs pl seasonName pe.tariffs with
              | error e => rw [hc] at h; cases h
              | ok u =>
                rw [hc] at h
                dsimp only at h
                cases h
                exact ⟨rfl, rfl, fun _ => ⟨pe, rfl, rfl⟩⟩

/-- `dataclasses.replace(prev_event, **kwargs)` in `_load_calendar`: a
calendar entry json that omits plan, season, or tariffs resolves carrying
the previous resolved entry's value of that field. -/
theorem mkCalendarEntry_inherits (plans : List (String × UsagePlan))
    (pe : CalendarEntry) (d : Int) (j : CalEntryJson) (en : CalendarEntry)
    (h : mkCalendarEntry plans (some pe) d j = .ok en) :
    (j.plan = none → en.plan = pe.plan) ∧
    (j.season = none → en.season = pe.season) ∧
    (j.tariffs = none → en.tariffs = pe.tariffs) := by
  have hf := mkCalendarEntry_ok_fields plans (some pe) d j en h
  refine ⟨?_, ?_, ?_⟩
  · intro hj
    have hx := hf.1
    rw [hj] at hx
    dsimp only [resolveField, Option.map] at hx
    exact (Except.ok.inj hx).symm
  · intro hj
    have hx := hf.2.1
    rw [hj] at hx
    dsimp only [resolveField, Option.map] at hx
    exact (Except.ok.inj hx).symm
  · intro hj
    obtain ⟨pe', hpe', ht⟩ := hf.2.2 hj
    rw [ht, Option.some.inj hpe']

/-- Inheritance along the whole entry loop of `_load_calendar`: in a
successful run from a resolved previous entry, every consecutive pair of
resolved entries inherits the omitted fields of the later entry's json. -/
theorem loadCalendar_inherits (plans : List (String × UsagePlan)) :
    ∀ (jsons : List (Int × CalEntryJson)) (pe : CalendarEntry)
      (out : List CalendarEntry),
      loadCalendarAux plans (some pe) jsons = (out, none) →
      ∀ q ∈ ((pe :: out).zip out).zip jsons,
        (q.2.2.plan = none → q.1.2.plan = q.1.1.plan) ∧
        (q.2.2.season = none → q.1.2.season = q.1.1.season) ∧
        (q.2.2.tariffs = none → q.1.2.tariffs = q.1.1.tariffs) := by
  intro jsons
  induction jsons with
  | nil =>
    intro pe out h q hq
    simp only [loadCalendarAux] at h
    rw [Prod.mk.injEq] at h
    rw [← h.1] at hq
    simp at hq
  | cons dj rest ih =>
    intro pe out h q hq
    match dj with
    | (d, j) =>
      simp only [loadCalendarAux] at h
      cases hmk : mkCalendarEntry plans (some pe) d j with
      | error e =>
        rw [hmk] at h
        dsimp only at h
        rw [Prod.mk.injEq] at h
        exact absurd h.2 (by simp)
      | ok en =>
        rw [hmk] at h
        dsimp only at h
        rw [Prod.mk.injEq] at h
        obtain ⟨hout, hnone⟩ := h
        rw [← hout] at hq
        simp only [List.zip_cons_cons, List.mem_cons] at hq
        rcases hq with he | he
        · subst he
          exact mkCalendarEntry_inherits plans pe d j en hmk
        · have hload : loadCalendarAux plans (some en) rest
              = ((loadCalendarAux plans (some en) rest).1, none) := by
            rw [← hnone]
          exact ih en (loadCalendarAux plans (some en) rest).1 hload q he

/-- Claim C4: incremental-diff construction. (a) In a successful calendar
load, an entry after the first that omits plan, season, or tariffs resolves
to the chronologically preceding resolved entry's value of that field.
(b) In a season built over a previous season, a named schedule that omits
days or periods resolves with the omitted field copied from the previous
season's schedule of the same name, and a schedule absent from the season's
json is copied whole from the previous season. -/
theorem incremental_diff_construction (plans : List (String × UsagePlan))
    (d0 : Int) (j0 : CalEntryJson) (rest : List (Int × CalEntryJson))
    (out : List CalendarEntry)
    (hload : loadCalendarAux plans none ((d0, j0) :: rest) = (out, none))
    (ps : Season) (sjs : List ScheduleJson) (s : Season)
    (hnd : (sjs.filterMap (fun sj => sj.schedule)).Nodup)
    (hbuild : buildSeason (some ps) sjs = .ok s) :
    (∀ q ∈ (out.zip out.tail).zip rest,
      (q.2.2.plan = none → q.1.2.plan = q.1.1.plan) ∧
      (q.2.2.season = none → q.1.2.season = q.1.1.season) ∧
      (q.2.2.tariffs = none → q.1.2.tariffs = q.1.1.tariffs)) ∧
    (∀ sj ∈ sjs, ∀ nm, sj.schedule = some nm → ∀ q, alookup nm ps = some q →
      ∃ r, alookup nm s = some r ∧
        (sj.days = none → r.days = q.days) ∧
        (sj.periods = none → r.periods = q.periods)) ∧
    (∀ nm q, alookup nm ps = some q → (∀ sj ∈ sjs, sj.schedule ≠ some nm) →
      alookup nm s = some q) := by
  have hseason := buildSeason_spec ps sjs s hbuild hnd
  refine ⟨?_, hseason.1, hseason.2⟩
  intro q hq
  simp only [loadCalendarAux] at hload
  cases hmk : mkCalendarEntry plans none d0 j0 with
  | error e =>
    rw [hmk] at hload
    dsimp only at hload
    rw [Prod.mk.injEq] at hload
    exact absurd hload.2 (by simp)
  | ok e0 =>
    rw [hmk] at hload
    dsimp only at hload
    rw [Prod.mk.injEq] at hload
    obtain ⟨hout, hnone⟩ := hload
    have hload' : loadCalendarAux plans (some e0) rest
        = ((loadCalendarAux plans (some e0) rest).1, none) := by
      rw [← hnone]
    have htail : out.zip out.tail
        = (e0 :: (loadCalendarAux plans (some e0) rest).1).zip
            (loadCalendarAux plans (some e0) rest).1 := by
      rw [← hout]
      rfl
    rw [htail] at hq
    exact loadCalendar_inherits plans rest e0
      (loadCalendarAux plans (some e0) rest).1 hload' q hq

/-- Concrete data for the C4 witness: a plan with Summer and Winter. -/
def seasonSummer : Season := [("sch", ⟨"sch", [0], [⟨"flat", 0, 0⟩]⟩)]

def seasonWinter : Season := [("sch", ⟨"sch", [0], [⟨"wflat", 0, 0⟩]⟩)]

def planP2 : UsagePlan :=
  ⟨"P", "Simple", [], [("Summer", seasonSummer), ("Winter", seasonWinter)]⟩

def calJson1 : CalEntryJson := ⟨some "P", some "Summer", some []⟩

/-- Second entry: omits plan and tariffs, changes season. -/
def calJson2 : CalEntryJson := ⟨none, some "Winter", none⟩

def calOut : List CalendarEntry :=
  [⟨0, "P", "Summer", [], none⟩, ⟨100, "P", "Winter", [], none⟩]

/-- A Winter json overriding only `days` for schedule "sch". -/
def sjWinter : ScheduleJson := ⟨some "sch", some [1], none⟩

def winterSeasonResolved : Season := [("sch", ⟨"sch", [1], [⟨"flat", 0, 0⟩]⟩)]

/-- Witness for C4: the spec's Scenario C calendar (entry 2 omits `plan`,
inherits "P") together with a season step whose schedule omits `periods`
and inherits them from the previous season. -/
theorem incremental_diff_construction_witness :
    (∀ q ∈ (calOut.zip calOut.tail).zip [((100 : Int), calJson2)],
      (q.2.2.plan = none → q.1.2.plan = q.1.1.plan) ∧
      (q.2.2.season = none → q.1.2.season = q.1.1.season) ∧
      (q.2.2.tariffs = none → q.1.2.tariffs = q.1.1.tariffs)) ∧
    (∀ sj ∈ [sjWinter], ∀ nm, sj.schedule = some nm →
      ∀ q, alookup nm seasonSummer = some q →
        ∃ r, alookup nm winterSeasonResolved = some r ∧
          (sj.days = none → r.days = q.days) ∧
          (sj.periods = none → r.periods = q.periods)) ∧
    (∀ nm q, alookup nm seasonSummer = some q →
      (∀ sj ∈ [sjWinter], sj.schedule ≠ some nm) →
      alookup nm winterSeasonResolved = some q) :=
  incremental_diff_construction [("P", planP2)] 0 calJson1 [(100, calJson2)] calOut
    rfl seasonSummer [sjWinter] winterSeasonResolved (by decide) rfl

end Pwdusage
